import Mathlib

/-!
# Indoor tracking: position estimation and stabilisation

A shallow embedding of `src/app/actions/data.js`.

Numbers are elements of a linearly ordered field `K` (exact arithmetic, no
rounding); `+Infinity` is the top element of `WithTop K`.  Where a property
turns on the rounding of doubles, the operations are taken from an `FlArith K`
value instead (`centroidPositionFl`).  The two numeric built-ins the program
calls, `Math.hypot` and `Math.pow`, are supplied through a `JsMath K` value;
`realMath` is their exact meaning over the reals.  The beacon table
`@/lib/beacons` is an argument `beacons` of every function that reads it.  The
`rssi` field of a raw reading is the integer that
`parseInt(r.rssi.replace("dBm", ""), 10)` produces; texts without a leading
integer are not represented.
-/

namespace IndoorTracking

/-! ## Data model -/

/-- Numeric built-ins used by the program: `Math.hypot(a, b)` and `Math.pow(b, e)`. -/
structure JsMath (K : Type) where
  hypot : K → K → K
  pow : K → K → K

/-- Exactness of the built-ins, as far as the program relies on it. -/
structure JsMath.Exact {K : Type} [LinearOrderedField K] (M : JsMath K) : Prop where
  hypot_nonneg : ∀ a b, 0 ≤ M.hypot a b
  hypot_sq : ∀ a b, M.hypot a b * M.hypot a b = a * a + b * b
  pow_zero : ∀ b, M.pow b 0 = 1
  pow_pos : ∀ b e, 0 < b → 0 < M.pow b e

/-- The built-ins over the real numbers. -/
noncomputable def realMath : JsMath ℝ where
  hypot := fun a b => Real.sqrt (a * a + b * b)
  pow := fun b e => b ^ e

/-- An entry of the beacon table: `{ mac, x, y }`. -/
structure Beacon (K : Type) where
  mac : String
  x : K
  y : K

/-- An element of `pos_data`: `{ mac, rssi }`, the rssi already read as an integer. -/
structure RawReading where
  mac : String
  rssi : Int
deriving DecidableEq, Repr

/-- A point `{ x, y }`. -/
structure Pos (K : Type) where
  x : K
  y : K
deriving DecidableEq

/-- An element built by `buildReadings`: `{ x, y, rssi, d }`. -/
structure Reading (K : Type) where
  x : K
  y : K
  rssi : Int
  d : K
deriving DecidableEq

/-- The value returned by a successful `trilaterateRaw`: `{ x, y, used }`. -/
structure TrilatResult (K : Type) where
  x : K
  y : K
  used : List (Reading K)

/-- The three values of the `method` field. -/
inductive Method where
  | trilateration
  | centroid_fallback
  | centroid_only
deriving DecidableEq, Repr

/-- The value returned by `estimatePosition`: `{ x, y, method, error }`. -/
structure PositionEstimate (K : Type) where
  x : K
  y : K
  method : Method
  error : WithTop K

/-- The value returned by `getLastDevicePosition`: `{ position, previousValues }`;
`none` stands for a null field (or, for `previousValues`, a value that is not an array). -/
structure LastData (K : Type) where
  position : Option (PositionEstimate K)
  previousValues : Option (List RawReading)

/-- A row of the `data` table, restricted to the columns the pipeline reads back. -/
structure Row (K : Type) where
  device_id : String
  pos_data : Option (PositionEstimate K)
  values : Option (List RawReading)

/-! ## Constants -/

section Defs

variable {K : Type} [LinearOrderedField K]

def REAL_WIDTH : K := 40
def REAL_HEIGHT : K := 30
def MIN_RSSI_FOR_TRILAT : Int := -90
def MAX_DISTANCE : K := 40
def MAX_MEAN_ERROR : K := 5
def MIN_RSSI_CHANGE_THRESHOLD : K := 5
def MIN_DISTANCE_CHANGE : K := 3 / 2

/-! ## Operations -/

/-- The method `String.prototype.toUpperCase` on the ASCII range (MAC addresses). -/
def toUpperCase (s : String) : String := ⟨s.data.map Char.toUpper⟩

/-- The function `getBeaconByMac`: first table entry whose upper-cased MAC equals the upper-cased argument. -/
def getBeaconByMac (beacons : List (Beacon K)) (mac : String) : Option (Beacon K) :=
  beacons.find? (fun b => toUpperCase b.mac == toUpperCase mac)

/-- The function `clampToFloor`. -/
def clampToFloor (pos : Pos K) : Pos K :=
  let x := max 0 (min REAL_WIDTH pos.x)
  let y := max 0 (min REAL_HEIGHT pos.y)
  { x := x, y := y }

/-- The function `rssiToDistance(rssi, rssiAt1m, n)`; the call site uses the defaults `-59` and `2.8`. -/
def rssiToDistance (M : JsMath K) (rssi : Int) (rssiAt1m : K) (n : K) : K :=
  let exponent := (rssiAt1m - (rssi : K)) / (10 * n)
  M.pow 10 exponent

/-- The function `buildReadings`: map every raw reading to a reading, dropping unknown beacons. -/
def buildReadings (M : JsMath K) (beacons : List (Beacon K)) (posData : List RawReading) :
    List (Reading K) :=
  posData.filterMap (fun r =>
    match getBeaconByMac beacons r.mac with
    | none => none
    | some beacon =>
      let rssi := r.rssi
      let dRaw := rssiToDistance M rssi (-59) (28 / 10)
      let d := min dRaw MAX_DISTANCE
      some { x := beacon.x, y := beacon.y, rssi := rssi, d := d })

/-- One turn of the loop of `centroidPosition` on the accumulator `(sumW, sumX, sumY)`. -/
def centroidStep (acc : K × K × K) (r : Reading K) : K × K × K :=
  let w := 1 / (r.d * r.d + 1 / 1000000)
  (acc.1 + w, acc.2.1 + w * r.x, acc.2.2 + w * r.y)

/-- The function `centroidPosition`. -/
def centroidPosition (readings : List (Reading K)) : Option (Pos K) :=
  if readings.length = 0 then none
  else
    let acc := readings.foldl centroidStep (0, 0, 0)
    some (clampToFloor { x := acc.2.1 / acc.1, y := acc.2.2 / acc.1 })

/-- The list `used` of `trilaterateRaw`: a stable sort by `d`, then the first five. -/
def usedReadings (readings : List (Reading K)) : List (Reading K) :=
  (readings.insertionSort (fun a b => a.d ≤ b.d)).take 5

/-- The accumulator `(A11, A12, A22, B1, B2)` of the loop of `trilaterateRaw`. -/
structure NormalEq (K : Type) where
  A11 : K
  A12 : K
  A22 : K
  B1 : K
  B2 : K

/-- One turn of the loop of `trilaterateRaw`, for the reading `p` against the reference. -/
def trilatStep (ref : Reading K) (acc : NormalEq K) (p : Reading K) : NormalEq K :=
  let dx := p.x - ref.x
  let dy := p.y - ref.y
  let rhs := (1 / 2) * ((p.x * p.x - ref.x * ref.x) + (p.y * p.y - ref.y * ref.y)
    + (ref.d * ref.d - p.d * p.d))
  { A11 := acc.A11 + dx * dx
    A12 := acc.A12 + dx * dy
    A22 := acc.A22 + dy * dy
    B1 := acc.B1 + dx * rhs
    B2 := acc.B2 + dy * rhs }

/-- The sums the loop of `trilaterateRaw` leaves for a list `used = ref :: rest`. -/
def normalEquations (ref : Reading K) (rest : List (Reading K)) : NormalEq K :=
  rest.foldl (trilatStep ref) { A11 := 0, A12 := 0, A22 := 0, B1 := 0, B2 := 0 }

/-- The function `trilaterateRaw`; `none` is the returned `null`.  The branch for an empty
`used` is never taken, since `used` has at least three elements there. -/
def trilaterateRaw (readings : List (Reading K)) : Option (TrilatResult K) :=
  if readings.length < 3 then none
  else
    match usedReadings readings with
    | [] => none
    | ref :: rest =>
      let s := normalEquations ref rest
      let det := s.A11 * s.A22 - s.A12 * s.A12
      if |det| < 1 / 1000000 then none
      else
        let invA11 := s.A22 / det
        let invA12 := -s.A12 / det
        let invA22 := s.A11 / det
        let x := invA11 * s.B1 + invA12 * s.B2
        let y := invA12 * s.B1 + invA22 * s.B2
        some { x := x, y := y, used := ref :: rest }

/-- The function `trilatError`. -/
def trilatError (M : JsMath K) (pos : Option (Pos K)) (readings : List (Reading K)) :
    WithTop K :=
  match pos with
  | none => ⊤
  | some pos =>
    if readings.length = 0 then ⊤
    else
      let sumAbs := readings.foldl
        (fun sumAbs r => sumAbs + |M.hypot (pos.x - r.x) (pos.y - r.y) - r.d|) 0
      ((sumAbs / (readings.length : K) : K) : WithTop K)

/-- The function `validateAllBeaconsExist`. -/
def validateAllBeaconsExist (beacons : List (Beacon K)) (posData : List RawReading) : Bool :=
  posData.all (fun item => (getBeaconByMac beacons item.mac).isSome)

/-- The local `strong` of `estimatePosition`. -/
def strongReadings (readingsAll : List (Reading K)) : List (Reading K) :=
  readingsAll.filter (fun r => decide (r.rssi ≥ MIN_RSSI_FOR_TRILAT))

/-- The local `trilatReadings` of `estimatePosition`. -/
def trilatReadings (readingsAll : List (Reading K)) : List (Reading K) :=
  if (strongReadings readingsAll).length ≥ 3 then strongReadings readingsAll else readingsAll

/-- The locals `(trilat, error)` of `estimatePosition` after the trilateration block. -/
def trilatAttempt (M : JsMath K) (readingsAll : List (Reading K)) :
    Option (Pos K) × WithTop K :=
  if (trilatReadings readingsAll).length ≥ 3 then
    match trilaterateRaw (trilatReadings readingsAll) with
    | some raw =>
      let clamped := clampToFloor { x := raw.x, y := raw.y }
      (some clamped, trilatError M (some clamped) (trilatReadings readingsAll))
    | none => (none, ⊤)
  else (none, ⊤)

/-- The function `estimatePosition`; `none` is the returned `null`.  The branch for an absent
centroid is never taken, since `readingsAll` is not empty there. -/
def estimatePosition (M : JsMath K) (beacons : List (Beacon K)) (posData : List RawReading) :
    Option (PositionEstimate K) :=
  if ¬ validateAllBeaconsExist beacons posData then none
  else
    let readingsAll := buildReadings M beacons posData
    if readingsAll.length = 0 then none
    else
      match centroidPosition readingsAll with
      | none => none
      | some centroid =>
        match trilatAttempt M readingsAll with
        | (some trilat, error) =>
          if error ≤ ((MAX_MEAN_ERROR : K) : WithTop K) then
            some { x := trilat.x, y := trilat.y, method := Method.trilateration, error := error }
          else
            some { x := centroid.x, y := centroid.y, method := Method.centroid_fallback,
                   error := error }
        | (none, error) =>
          some { x := centroid.x, y := centroid.y, method := Method.centroid_only,
                 error := error }

/-! ## Stabilisation -/

/-- The method `Map.prototype.set` on a map from MAC to rssi, the map being its lookup function. -/
def mapSet (m : String → Option Int) (key : String) (value : Int) : String → Option Int :=
  fun k => if k = key then some value else m k

/-- The local `previousRssiMap` of `calculateRssiChange`. -/
def previousRssiMap (previousValues : List RawReading) : String → Option Int :=
  previousValues.foldl (fun m item => mapSet m (toUpperCase item.mac) item.rssi) (fun _ => none)

/-- One turn of the second loop of `calculateRssiChange` on `(totalChange, matchedCount)`. -/
def rssiChangeStep (prev : String → Option Int) (acc : Int × Nat) (item : RawReading) :
    Int × Nat :=
  let mac := toUpperCase item.mac
  let currentRssi := item.rssi
  match prev mac with
  | some previousRssi => (acc.1 + |currentRssi - previousRssi|, acc.2 + 1)
  | none => acc

/-- The function `calculateRssiChange`. -/
def calculateRssiChange (currentPosData : List RawReading)
    (previousValues : Option (List RawReading)) : WithTop K :=
  match previousValues with
  | none => ⊤
  | some previousValues =>
    if previousValues.length = 0 then ⊤
    else
      let acc := currentPosData.foldl (rssiChangeStep (previousRssiMap previousValues)) (0, 0)
      if acc.2 = 0 then ⊤
      else ((((acc.1 : Int) : K) / ((acc.2 : Nat) : K) : K) : WithTop K)

/-- The function `calculatePositionDistance`. -/
def calculatePositionDistance (M : JsMath K) (pos1 pos2 : Option (PositionEstimate K)) :
    WithTop K :=
  match pos1, pos2 with
  | some pos1, some pos2 => ((M.hypot (pos1.x - pos2.x) (pos1.y - pos2.y) : K) : WithTop K)
  | _, _ => ⊤

/-- The function `hasSignificantChange`. -/
def hasSignificantChange (M : JsMath K) (currentPosData : List RawReading)
    (newPosition : Option (PositionEstimate K)) (lastData : Option (LastData K)) : Bool :=
  match lastData with
  | none => true
  | some lastData =>
    match lastData.position with
    | none => true
    | some lastPosition =>
      let rssiChange : WithTop K := calculateRssiChange currentPosData lastData.previousValues
      let hasSignificantRssiChange :=
        decide (rssiChange ≥ ((MIN_RSSI_CHANGE_THRESHOLD : K) : WithTop K))
      let positionDistance := calculatePositionDistance M newPosition (some lastPosition)
      let hasSignificantPositionChange :=
        decide (positionDistance ≥ ((MIN_DISTANCE_CHANGE : K) : WithTop K))
      (hasSignificantRssiChange && hasSignificantPositionChange)
        || decide (rssiChange ≥ (((MIN_RSSI_CHANGE_THRESHOLD * 2 : K)) : WithTop K))

/-- The function `getLastDevicePosition` on a table whose newest row comes first. -/
def getLastDevicePosition (store : List (Row K)) (deviceId : String) : Option (LastData K) :=
  match store.find? (fun row => row.device_id == deviceId) with
  | none => none
  | some row => some { position := row.pos_data, previousValues := row.values }

/-- The local `finalPosition` of `insertData`. -/
def finalPosition (M : JsMath K) (posData : List RawReading)
    (estimatedPosition : PositionEstimate K) (lastData : Option (LastData K)) :
    PositionEstimate K :=
  if hasSignificantChange M posData (some estimatedPosition) lastData then estimatedPosition
  else
    match lastData with
    | none => estimatedPosition
    | some lastData =>
      match lastData.position with
      | none => estimatedPosition
      | some position => position

/-- The function `insertData` as a transition of the table: the table after the call.  The
arguments `deviceEuid` and `posData` are the fields read from the uplink (`none` when absent);
the read and the insert of the table are taken to succeed. -/
def insertData (M : JsMath K) (beacons : List (Beacon K)) (store : List (Row K))
    (deviceId : String) (deviceEuid : Option String) (posData : Option (List RawReading)) :
    List (Row K) :=
  match posData, deviceEuid with
  | some posData, some deviceEuid =>
    if deviceEuid = "" then store
    else
      match estimatePosition M beacons posData with
      | none => store
      | some estimatedPosition =>
        let lastData := getLastDevicePosition store deviceId
        let final := finalPosition M posData estimatedPosition lastData
        { device_id := deviceId, pos_data := some final, values := some posData } :: store
  | _, _ => store

/-! ## Notions used to state the properties -/

/-- A MAC resolves when some table entry has the same upper-cased MAC. -/
def Resolves (beacons : List (Beacon K)) (mac : String) : Prop :=
  ∃ b ∈ beacons, toUpperCase b.mac = toUpperCase mac

/-- The local `det` of `trilaterateRaw` (zero when `used` is empty). -/
def trilatDet (readings : List (Reading K)) : K :=
  match usedReadings readings with
  | [] => 0
  | ref :: rest =>
    let s := normalEquations ref rest
    s.A11 * s.A22 - s.A12 * s.A12

/-- The `x`, `y` part of an estimate. -/
def PositionEstimate.pos (e : PositionEstimate K) : Pos K := { x := e.x, y := e.y }

/-! ## Concrete inputs used in the examples -/

/-- A beacon table with four entries: A(0,0), B(10,0), C(0,10) and D(20,0). -/
noncomputable def demoBeacons : List (Beacon ℝ) :=
  [ { mac := "C3:00:00:00:00:0A", x := 0, y := 0 },
    { mac := "C3:00:00:00:00:0B", x := 10, y := 0 },
    { mac := "C3:00:00:00:00:0C", x := 0, y := 10 },
    { mac := "C3:00:00:00:00:0D", x := 20, y := 0 } ]

/-- A batch that reports A, B and C at -59 dBm each. -/
def batchABC : List RawReading :=
  [ { mac := "c3:00:00:00:00:0a", rssi := -59 },
    { mac := "c3:00:00:00:00:0b", rssi := -59 },
    { mac := "c3:00:00:00:00:0c", rssi := -59 } ]

/-- A batch that reports the three beacons A, B and D, which lie on the line `y = 0`. -/
def batchABD : List RawReading :=
  [ { mac := "c3:00:00:00:00:0a", rssi := -59 },
    { mac := "c3:00:00:00:00:0b", rssi := -59 },
    { mac := "c3:00:00:00:00:0d", rssi := -59 } ]

/-- The readings `buildReadings` makes of `batchABC`: each distance is exactly 1. -/
noncomputable def readingsABC : List (Reading ℝ) :=
  [ { x := 0, y := 0, rssi := -59, d := 1 },
    { x := 10, y := 0, rssi := -59, d := 1 },
    { x := 0, y := 10, rssi := -59, d := 1 } ]

/-- The readings `buildReadings` makes of `batchABD`: each distance is exactly 1. -/
noncomputable def readingsABD : List (Reading ℝ) :=
  [ { x := 0, y := 0, rssi := -59, d := 1 },
    { x := 10, y := 0, rssi := -59, d := 1 },
    { x := 20, y := 0, rssi := -59, d := 1 } ]

/-- The prior rssi of a MAC, compared case-insensitively: that of the last prior reading
whose upper-cased MAC equals the upper-cased argument. -/
def specPriorRssi (previous : List RawReading) (mac : String) : Option Int :=
  (previous.reverse.find? (fun p => toUpperCase p.mac == toUpperCase mac)).map (fun p => p.rssi)

/-- The current readings whose MAC occurs, case-insensitively, among the prior readings. -/
def specMatched (current previous : List RawReading) : List RawReading :=
  current.filter (fun c => previous.any (fun p => toUpperCase p.mac == toUpperCase c.mac))

/-- The mean RSSI change as the specification words it: the mean of
`|currentRssi - previousRssi|` over the current readings whose MAC occurs in the prior
readings, and `+Infinity` when there is none. -/
def specMeanRssiChange (current : List RawReading) (previous : Option (List RawReading)) :
    WithTop K :=
  let matched := specMatched current (previous.getD [])
  if matched = [] then ⊤
  else
    let total : Int :=
      (matched.map (fun c => |c.rssi - (specPriorRssi (previous.getD []) c.mac).getD 0|)).sum
    (((total : K) / (matched.length : K) : K) : WithTop K)

/-- The position change as the specification words it: the Euclidean distance between the
new and the prior position, and `+Infinity` when the new position is absent. -/
noncomputable def specPositionChange (newPosition : Option (PositionEstimate ℝ))
    (prior : PositionEstimate ℝ) : WithTop ℝ :=
  match newPosition with
  | none => ⊤
  | some p => ((Real.sqrt ((p.x - prior.x) ^ 2 + (p.y - prior.y) ^ 2) : ℝ) : WithTop ℝ)

/-- A batch that reports beacon A twice, at -59 dBm and at -87 dBm. -/
def batchAA : List RawReading :=
  [ { mac := "c3:00:00:00:00:0a", rssi := -59 },
    { mac := "c3:00:00:00:00:0a", rssi := -87 } ]

/-- A previously stored position, at (20, 15). -/
noncomputable def priorFix : PositionEstimate ℝ :=
  { x := 20, y := 15, method := Method.centroid_only, error := ⊤ }

/-- The estimate of `batchAA`: both readings sit on beacon A, at (0, 0). -/
noncomputable def estimateAA : PositionEstimate ℝ :=
  { x := 0, y := 0, method := Method.centroid_only, error := ⊤ }

/-- A table whose newest row for `dev-1` holds `priorFix` and the raw readings `batchAA`. -/
noncomputable def storeAA : List (Row ℝ) :=
  [ { device_id := "dev-1", pos_data := some priorFix, values := some batchAA } ]

/-- A table whose newest row for `dev-1` holds `priorFix` and the raw readings `batchABC`. -/
noncomputable def storeABC : List (Row ℝ) :=
  [ { device_id := "dev-1", pos_data := some priorFix, values := some batchABC } ]

/-- A batch that reports beacon D alone. -/
def batchD : List RawReading :=
  [ { mac := "C3:00:00:00:00:0D", rssi := -70 } ]

/-- The beacon coordinates of the readings all lie on one line `a * x + b * y = c`; readings
that all sit on the same point are a special case. -/
def Collinear (readings : List (Reading K)) : Prop :=
  ∃ a b c : K, (a ≠ 0 ∨ b ≠ 0) ∧ ∀ r ∈ readings, a * r.x + b * r.y = c

/-- The beacon table of the end-to-end example: A(0,0), B(10,0) and C(0,10). -/
noncomputable def beaconsABC : List (Beacon ℝ) :=
  [ { mac := "C3:00:00:00:00:0A", x := 0, y := 0 },
    { mac := "C3:00:00:00:00:0B", x := 10, y := 0 },
    { mac := "C3:00:00:00:00:0C", x := 0, y := 10 } ]

/-- A reading of a beacon placed at (50, 0), outside the floor, at distance 1. -/
noncomputable def readingOffFloor : Reading ℝ :=
  { x := 50, y := 0, rssi := -59, d := 1 }


/-- The trilateration input set as the specification words it: the readings with
`rssi ≥ -90` when at least 3 readings satisfy that bound, and the full list otherwise. -/
def specTrilatInput (readings : List (Reading K)) : List (Reading K) :=
  if 3 ≤ (readings.filter (fun r => decide (-90 ≤ r.rssi))).length then
    readings.filter (fun r => decide (-90 ≤ r.rssi))
  else readings

/-- The coefficient `dx = Px - Rx` of the linearised equation of `p` against `ref`. -/
def specDx (ref p : Reading K) : K := p.x - ref.x

/-- The coefficient `dy = Py - Ry` of the linearised equation of `p` against `ref`. -/
def specDy (ref p : Reading K) : K := p.y - ref.y

/-- The right-hand side `0.5 * [(Px² - Rx²) + (Py² - Ry²) + (Rd² - Pd²)]`. -/
def specRhs (ref p : Reading K) : K :=
  (1 / 2) * ((p.x ^ 2 - ref.x ^ 2) + (p.y ^ 2 - ref.y ^ 2) + (ref.d ^ 2 - p.d ^ 2))

/-- The normal equations as the specification words them: sums over all the non-reference
readings `rest` of `dx²`, `dx * dy`, `dy²`, `dx * rhs` and `dy * rhs`. -/
def specNormalEq (ref : Reading K) (rest : List (Reading K)) : NormalEq K :=
  { A11 := (rest.map (fun p => specDx ref p ^ 2)).sum
    A12 := (rest.map (fun p => specDx ref p * specDy ref p)).sum
    A22 := (rest.map (fun p => specDy ref p ^ 2)).sum
    B1 := (rest.map (fun p => specDx ref p * specRhs ref p)).sum
    B2 := (rest.map (fun p => specDy ref p * specRhs ref p)).sum }

/-- The sum of the squared residuals `(dx * x + dy * y - rhs)²` over the non-reference
readings `rest`. -/
def residualSumSq (ref : Reading K) (rest : List (Reading K)) (x y : K) : K :=
  (rest.map (fun p => (specDx ref p * x + specDy ref p * y - specRhs ref p) ^ 2)).sum

/-- Three readings on the circle of radius 5 around (20, 15), each at distance exactly 5. -/
noncomputable def readingsCircle : List (Reading ℝ) :=
  [ { x := 25, y := 15, rssi := -79, d := 5 },
    { x := 15, y := 15, rssi := -79, d := 5 },
    { x := 20, y := 20, rssi := -79, d := 5 } ]

/-- The mean error as the specification words it: the mean of
`|euclideanDistance(pos, r) - r.d|` over the readings of a list. -/
noncomputable def specMeanError (pos : Pos ℝ) (readings : List (Reading ℝ)) : ℝ :=
  (readings.map
      (fun r => |Real.sqrt ((pos.x - r.x) ^ 2 + (pos.y - r.y) ^ 2) - r.d|)).sum
    / (readings.length : ℝ)

/-- Six beacons: five on the circle of radius 5 around (20, 15), and one at (20, 25). -/
noncomputable def beaconsRing : List (Beacon ℝ) :=
  [ { mac := "C3:00:00:00:00:01", x := 25, y := 15 },
    { mac := "C3:00:00:00:00:02", x := 15, y := 15 },
    { mac := "C3:00:00:00:00:03", x := 20, y := 20 },
    { mac := "C3:00:00:00:00:04", x := 20, y := 10 },
    { mac := "C3:00:00:00:00:05", x := 23, y := 19 },
    { mac := "C3:00:00:00:00:06", x := 20, y := 25 } ]

/-- A batch of six readings: the five beacons of the circle at -59 dBm (distance 1) and the
sixth beacon at -87 dBm (distance 10). -/
def batchRing : List RawReading :=
  [ { mac := "C3:00:00:00:00:01", rssi := -59 },
    { mac := "C3:00:00:00:00:02", rssi := -59 },
    { mac := "C3:00:00:00:00:03", rssi := -59 },
    { mac := "C3:00:00:00:00:04", rssi := -59 },
    { mac := "C3:00:00:00:00:05", rssi := -59 },
    { mac := "C3:00:00:00:00:06", rssi := -87 } ]

/-- The five nearest readings of `batchRing`, in the order of the batch. -/
noncomputable def usedRing : List (Reading ℝ) :=
  [ { x := 25, y := 15, rssi := -59, d := 1 },
    { x := 15, y := 15, rssi := -59, d := 1 },
    { x := 20, y := 20, rssi := -59, d := 1 },
    { x := 20, y := 10, rssi := -59, d := 1 },
    { x := 23, y := 19, rssi := -59, d := 1 } ]

/-- The six readings `buildReadings` makes of `batchRing`. -/
noncomputable def readingsRing : List (Reading ℝ) :=
  usedRing ++ [ { x := 20, y := 25, rssi := -87, d := 10 } ]

/-- The table after a sequence of reports of one device, each handled by `insertData`. -/
def runReports (M : JsMath K) (beacons : List (Beacon K)) (deviceId deviceEuid : String)
    (store : List (Row K)) (reports : List (List RawReading)) : List (Row K) :=
  reports.foldl
    (fun st posData => insertData M beacons st deviceId (some deviceEuid) (some posData)) store

/-- The position of the last row stored for a device, if any. -/
def persistedPosition (store : List (Row K)) (deviceId : String) :
    Option (PositionEstimate K) :=
  (getLastDevicePosition store deviceId).bind (fun lastData => lastData.position)

/-- Four reports of one device: beacon A drifts by 4 dBm from each report to the next, 12 dBm
in all, and the last report also hears B and C. -/
def driftReports : List (List RawReading) :=
  [ [ { mac := "c3:00:00:00:00:0a", rssi := -63 } ],
    [ { mac := "c3:00:00:00:00:0a", rssi := -67 } ],
    [ { mac := "c3:00:00:00:00:0a", rssi := -71 },
      { mac := "c3:00:00:00:00:0b", rssi := -59 },
      { mac := "c3:00:00:00:00:0c", rssi := -59 } ] ]

/-- The first report of the drift example: beacon A at -59 dBm. -/
def driftFirst : List RawReading :=
  [ { mac := "c3:00:00:00:00:0a", rssi := -59 } ]

/-! ## Rounded arithmetic -/

/-- The arithmetic of the machine: the sum, product and quotient as they are computed, each
possibly rounded, and `u`, the largest relative error of one operation (for doubles,
`2 ^ (-53)`). -/
structure FlArith (K : Type) where
  add : K → K → K
  mul : K → K → K
  div : K → K → K
  u : K

/-- Arithmetic without rounding. -/
def exactArith : FlArith K where
  add := fun a b => a + b
  mul := fun a b => a * b
  div := fun a b => a / b
  u := 0

/-- The weight `w = 1 / (r.d * r.d + 1e-6)` of `centroidPosition`, as the machine computes
it. -/
def weightFl (F : FlArith K) (r : Reading K) : K :=
  F.div 1 (F.add (F.mul r.d r.d) (1 / 1000000))

/-- One turn of the loop of `centroidPosition`, every operation being that of the machine. -/
def centroidStepFl (F : FlArith K) (acc : K × K × K) (r : Reading K) : K × K × K :=
  let w := weightFl F r
  (F.add acc.1 w, F.add acc.2.1 (F.mul w r.x), F.add acc.2.2 (F.mul w r.y))

/-- The function `centroidPosition`, every operation being that of the machine; with
`exactArith` it is `centroidPosition`. -/
def centroidPositionFl (F : FlArith K) (readings : List (Reading K)) : Option (Pos K) :=
  if readings.length = 0 then none
  else
    let acc := readings.foldl (centroidStepFl F) (0, 0, 0)
    some (clampToFloor { x := F.div acc.2.1 acc.1, y := F.div acc.2.2 acc.1 })

/-- The product `w * v` and the quotient `(w * v) / w` are each computed with a relative error
of at most `F.u`. -/
def FlArith.RoundsAt (F : FlArith K) (w v : K) : Prop :=
  ∃ δ₁ δ₂ : K, |δ₁| ≤ F.u ∧ |δ₂| ≤ F.u ∧ F.mul w v = w * v * (1 + δ₁) ∧
    F.div (F.mul w v) w = F.mul w v / w * (1 + δ₂)

/-- An arithmetic whose every product comes out too large by one part in a thousand. -/
noncomputable def coarseArith : FlArith ℝ where
  add := fun a b => a + b
  mul := fun a b => a * b * (1 + 1 / 1000)
  div := fun a b => a / b
  u := 1 / 1000

/-- A reading of a beacon placed at (7, 0), on the floor, at the capped distance 40. -/
noncomputable def readingSeven : Reading ℝ :=
  { x := 7, y := 0, rssi := -104, d := 40 }

end Defs

end IndoorTracking

namespace IndoorTracking

/-! ## Auxiliary facts -/

theorem getBeaconByMac_eq_none_iff {K : Type} (beacons : List (Beacon K)) (mac : String) :
    getBeaconByMac beacons mac = none ↔ ¬ Resolves beacons mac := by
  simp [getBeaconByMac, Resolves, List.find?_eq_none]

theorem getBeaconByMac_isSome_iff {K : Type} (beacons : List (Beacon K)) (mac : String) :
    (getBeaconByMac beacons mac).isSome = true ↔ Resolves beacons mac := by
  rw [← not_iff_not, ← getBeaconByMac_eq_none_iff]
  cases getBeaconByMac beacons mac <;> simp

theorem validateAllBeaconsExist_iff {K : Type} (beacons : List (Beacon K))
    (posData : List RawReading) :
    validateAllBeaconsExist beacons posData = true ↔ ∀ r ∈ posData, Resolves beacons r.mac := by
  simp [validateAllBeaconsExist, List.all_eq_true, getBeaconByMac_isSome_iff]

section BasicLemmas

variable {K : Type} [LinearOrderedField K]

theorem clampToFloor_bounds (p : Pos K) :
    0 ≤ (clampToFloor p).x ∧ (clampToFloor p).x ≤ 40 ∧
      0 ≤ (clampToFloor p).y ∧ (clampToFloor p).y ≤ 30 := by
  refine ⟨le_max_left _ _, max_le (by norm_num) (min_le_left _ _), le_max_left _ _,
    max_le (by norm_num) (min_le_left _ _)⟩

theorem buildReadings_length (M : JsMath K) (beacons : List (Beacon K))
    (posData : List RawReading) (h : validateAllBeaconsExist beacons posData = true) :
    (buildReadings M beacons posData).length = posData.length := by
  induction posData with
  | nil => rfl
  | cons r rest ih =>
    simp only [validateAllBeaconsExist, List.all_cons, Bool.and_eq_true] at h
    obtain ⟨hr, hrest⟩ := h
    obtain ⟨b, hb⟩ := Option.isSome_iff_exists.mp hr
    have ih2 := ih hrest
    simp only [buildReadings] at ih2 ⊢
    rw [List.filterMap_cons]
    simp only [hb, List.length_cons, ih2]

theorem centroidPosition_of_ne_nil (readings : List (Reading K)) (h : readings ≠ []) :
    centroidPosition readings = some (clampToFloor
      { x := (readings.foldl centroidStep (0, 0, 0)).2.1 / (readings.foldl centroidStep (0, 0, 0)).1
        y := (readings.foldl centroidStep (0, 0, 0)).2.2 / (readings.foldl centroidStep (0, 0, 0)).1 }) := by
  have : readings.length ≠ 0 := by simpa using h
  simp [centroidPosition, this]

theorem centroidPosition_is_clamped (readings : List (Reading K)) (c : Pos K)
    (h : centroidPosition readings = some c) : ∃ p, c = clampToFloor p := by
  unfold centroidPosition at h
  split at h
  · simp at h
  · exact ⟨_, (Option.some.inj h).symm⟩

theorem trilatAttempt_is_clamped (M : JsMath K) (readingsAll : List (Reading K)) (t : Pos K)
    (err : WithTop K) (h : trilatAttempt M readingsAll = (some t, err)) :
    ∃ p, t = clampToFloor p := by
  unfold trilatAttempt at h
  split at h
  · split at h
    · simp only [Prod.mk.injEq, Option.some.injEq] at h
      exact ⟨_, h.1.symm⟩
    · simp at h
  · simp at h

theorem buildReadings_ne_nil (M : JsMath K) (beacons : List (Beacon K))
    (posData : List RawReading) (hne : posData ≠ [])
    (hv : ∀ r ∈ posData, Resolves beacons r.mac) : buildReadings M beacons posData ≠ [] := by
  have hlen := buildReadings_length M beacons posData ((validateAllBeaconsExist_iff _ _).mpr hv)
  intro h
  rw [h] at hlen
  exact hne (List.length_eq_zero.mp hlen.symm)

theorem trilaterateRaw_eq_none_of_short (readings : List (Reading K))
    (h : readings.length < 3) : trilaterateRaw readings = none := by
  simp [trilaterateRaw, h]

theorem trilatAttempt_eq (M : JsMath K) (readingsAll : List (Reading K)) :
    trilatAttempt M readingsAll =
      match trilaterateRaw (trilatReadings readingsAll) with
      | some raw =>
        (some (clampToFloor { x := raw.x, y := raw.y }),
          trilatError M (some (clampToFloor { x := raw.x, y := raw.y }))
            (trilatReadings readingsAll))
      | none => (none, ⊤) := by
  unfold trilatAttempt
  split
  · rfl
  · rename_i h
    rw [trilaterateRaw_eq_none_of_short _ (by omega)]

/-- The three outcomes of `estimatePosition` on a non-empty batch whose MACs all resolve. -/
theorem estimatePosition_of_valid (M : JsMath K) (beacons : List (Beacon K))
    (posData : List RawReading) (hne : posData ≠ [])
    (hv : ∀ r ∈ posData, Resolves beacons r.mac) :
    ∃ c, centroidPosition (buildReadings M beacons posData) = some c ∧
      estimatePosition M beacons posData =
        match trilaterateRaw (trilatReadings (buildReadings M beacons posData)) with
        | none => some { x := c.x, y := c.y, method := Method.centroid_only, error := ⊤ }
        | some raw =>
          if trilatError M (some (clampToFloor { x := raw.x, y := raw.y }))
              (trilatReadings (buildReadings M beacons posData)) ≤ ((MAX_MEAN_ERROR : K) : WithTop K)
          then some { x := (clampToFloor { x := raw.x, y := raw.y }).x
                      y := (clampToFloor { x := raw.x, y := raw.y }).y
                      method := Method.trilateration
                      error := trilatError M (some (clampToFloor { x := raw.x, y := raw.y }))
                        (trilatReadings (buildReadings M beacons posData)) }
          else some { x := c.x, y := c.y, method := Method.centroid_fallback
                      error := trilatError M (some (clampToFloor { x := raw.x, y := raw.y }))
                        (trilatReadings (buildReadings M beacons posData)) } := by
  have hb := buildReadings_ne_nil M beacons posData hne hv
  have hc := centroidPosition_of_ne_nil _ hb
  refine ⟨_, hc, ?_⟩
  have hval := (validateAllBeaconsExist_iff _ _).mpr hv
  have hlen : (buildReadings M beacons posData).length ≠ 0 := by simpa using hb
  unfold estimatePosition
  simp only [hval, not_true_eq_false, if_false, hlen, hc, trilatAttempt_eq]
  cases trilaterateRaw (trilatReadings (buildReadings M beacons posData)) with
  | none => rfl
  | some raw => rfl

theorem trilaterateRaw_eq_none_iff (readings : List (Reading K)) :
    trilaterateRaw readings = none ↔
      readings.length < 3 ∨ |trilatDet readings| < 1 / 1000000 := by
  unfold trilaterateRaw trilatDet
  by_cases h : readings.length < 3
  · simp [h]
  · simp only [h, if_false, false_or]
    cases usedReadings readings with
    | nil => simp
    | cons ref rest =>
      simp only
      split <;> simp_all

omit [LinearOrderedField K] in
theorem strongReadings_length_le (readingsAll : List (Reading K)) :
    (strongReadings readingsAll).length ≤ readingsAll.length := by
  unfold strongReadings
  exact List.length_filter_le _ _

omit [LinearOrderedField K] in
theorem trilatReadings_length_lt_three_iff (readingsAll : List (Reading K)) :
    (trilatReadings readingsAll).length < 3 ↔ readingsAll.length < 3 := by
  have := strongReadings_length_le readingsAll
  unfold trilatReadings
  split <;> omega

end BasicLemmas

section Eval

/-! ## Evaluation on the concrete inputs -/

/-- The built-ins over the reals are exact. -/
theorem realMath_exact : realMath.Exact where
  hypot_nonneg := fun _ _ => Real.sqrt_nonneg _
  hypot_sq := fun a b =>
    Real.mul_self_sqrt (add_nonneg (mul_self_nonneg a) (mul_self_nonneg b))
  pow_zero := fun _ => Real.rpow_zero _
  pow_pos := fun _ e hb => Real.rpow_pos_of_pos hb e

theorem rssiToDistance_at_reference :
    rssiToDistance realMath (-59) (-59) (28 / 10) = 1 := by
  simp [rssiToDistance, realMath]

theorem buildReadings_batchABC :
    buildReadings realMath demoBeacons batchABC = readingsABC := by
  simp [buildReadings, getBeaconByMac, demoBeacons, batchABC, rssiToDistance_at_reference,
    MAX_DISTANCE, List.find?, toUpperCase, readingsABC]

theorem buildReadings_batchABD :
    buildReadings realMath demoBeacons batchABD = readingsABD := by
  simp [buildReadings, getBeaconByMac, demoBeacons, batchABD, rssiToDistance_at_reference,
    MAX_DISTANCE, List.find?, toUpperCase, readingsABD]

theorem resolves_batchABC : ∀ r ∈ batchABC, Resolves demoBeacons r.mac := by
  simp [batchABC, Resolves, demoBeacons, toUpperCase]

theorem resolves_batchABD : ∀ r ∈ batchABD, Resolves demoBeacons r.mac := by
  simp [batchABD, Resolves, demoBeacons, toUpperCase]

theorem trilatReadings_readingsABC : trilatReadings readingsABC = readingsABC := by
  simp [trilatReadings, strongReadings, MIN_RSSI_FOR_TRILAT, readingsABC]

theorem trilatReadings_readingsABD : trilatReadings readingsABD = readingsABD := by
  simp [trilatReadings, strongReadings, MIN_RSSI_FOR_TRILAT, readingsABD]

theorem usedReadings_readingsABC : usedReadings readingsABC = readingsABC := by
  simp [usedReadings, List.insertionSort, List.orderedInsert, readingsABC]

theorem usedReadings_readingsABD : usedReadings readingsABD = readingsABD := by
  simp [usedReadings, List.insertionSort, List.orderedInsert, readingsABD]

theorem trilaterateRaw_readingsABD : trilaterateRaw readingsABD = none := by
  simp [trilaterateRaw, usedReadings_readingsABD]
  simp [readingsABD, normalEquations, trilatStep]

theorem trilaterateRaw_readingsABC :
    trilaterateRaw readingsABC = some { x := 5, y := 5, used := readingsABC } := by
  simp [trilaterateRaw, usedReadings_readingsABC]
  simp [readingsABC, normalEquations, trilatStep]
  norm_num [abs_of_nonneg]

theorem centroidPosition_readingsABD :
    centroidPosition readingsABD = some { x := 10, y := 0 } := by
  simp [centroidPosition, centroidStep, clampToFloor, REAL_WIDTH, REAL_HEIGHT, readingsABD]
  norm_num

theorem centroidPosition_readingsABC :
    centroidPosition readingsABC = some { x := 10 / 3, y := 10 / 3 } := by
  simp [centroidPosition, centroidStep, clampToFloor, REAL_WIDTH, REAL_HEIGHT, readingsABC]
  norm_num

theorem estimatePosition_batchABD :
    estimatePosition realMath demoBeacons batchABD =
      some { x := 10, y := 0, method := Method.centroid_only, error := ⊤ } := by
  obtain ⟨c, hc, he⟩ := estimatePosition_of_valid realMath demoBeacons batchABD
    (by simp [batchABD]) resolves_batchABD
  rw [he]
  rw [buildReadings_batchABD] at hc ⊢
  rw [trilatReadings_readingsABD, trilaterateRaw_readingsABD]
  rw [centroidPosition_readingsABD] at hc
  cases hc
  rfl

theorem six_lt_sqrt_fifty : (6 : ℝ) < Real.sqrt 50 := by
  rw [Real.lt_sqrt (by norm_num)]
  norm_num

theorem clampToFloor_five_five :
    clampToFloor ({ x := 5, y := 5 } : Pos ℝ) = { x := 5, y := 5 } := by
  simp [clampToFloor, REAL_WIDTH, REAL_HEIGHT]
  norm_num

theorem trilatError_readingsABC :
    trilatError realMath (some { x := 5, y := 5 }) readingsABC
      = ((Real.sqrt 50 - 1 : ℝ) : WithTop ℝ) := by
  have h6 := six_lt_sqrt_fifty
  have habs : |Real.sqrt 50 - 1| = Real.sqrt 50 - 1 := abs_of_nonneg (by linarith)
  simp only [trilatError, readingsABC, realMath, List.length_cons, List.length_nil,
    List.foldl_cons, List.foldl_nil]
  norm_num [habs]
  congr 1
  ring

theorem estimatePosition_of_readingsABC (beacons : List (Beacon ℝ))
    (posData : List RawReading) (hne : posData ≠ [])
    (hv : ∀ r ∈ posData, Resolves beacons r.mac)
    (hb : buildReadings realMath beacons posData = readingsABC) :
    estimatePosition realMath beacons posData =
      some { x := 10 / 3, y := 10 / 3, method := Method.centroid_fallback,
             error := ((Real.sqrt 50 - 1 : ℝ) : WithTop ℝ) } := by
  obtain ⟨c, hc, he⟩ := estimatePosition_of_valid realMath beacons posData hne hv
  rw [he]
  rw [hb] at hc ⊢
  rw [trilatReadings_readingsABC, trilaterateRaw_readingsABC]
  rw [centroidPosition_readingsABC] at hc
  cases hc
  have h6 := six_lt_sqrt_fifty
  simp only [clampToFloor_five_five, trilatError_readingsABC, MAX_MEAN_ERROR]
  rw [if_neg]
  rw [WithTop.coe_le_coe]
  linarith

theorem estimatePosition_batchABC :
    estimatePosition realMath demoBeacons batchABC =
      some { x := 10 / 3, y := 10 / 3, method := Method.centroid_fallback,
             error := ((Real.sqrt 50 - 1 : ℝ) : WithTop ℝ) } :=
  estimatePosition_of_readingsABC demoBeacons batchABC (by simp [batchABC]) resolves_batchABC
    buildReadings_batchABC

theorem buildReadings_beaconsABC :
    buildReadings realMath beaconsABC batchABC = readingsABC := by
  simp [buildReadings, getBeaconByMac, beaconsABC, batchABC, rssiToDistance_at_reference,
    MAX_DISTANCE, List.find?, toUpperCase, readingsABC]

theorem resolves_beaconsABC : ∀ r ∈ batchABC, Resolves beaconsABC r.mac := by
  simp [batchABC, Resolves, beaconsABC, toUpperCase]

theorem estimatePosition_beaconsABC :
    estimatePosition realMath beaconsABC batchABC =
      some { x := 10 / 3, y := 10 / 3, method := Method.centroid_fallback,
             error := ((Real.sqrt 50 - 1 : ℝ) : WithTop ℝ) } :=
  estimatePosition_of_readingsABC beaconsABC batchABC (by simp [batchABC]) resolves_beaconsABC
    buildReadings_beaconsABC

theorem rssiToDistance_at_minus_87 :
    rssiToDistance realMath (-87) (-59) (28 / 10) = 10 := by
  have h : ((-59 : ℝ) - ((-87 : Int) : ℝ)) / (10 * (28 / 10)) = 1 := by norm_num
  simp only [rssiToDistance, realMath, h, Real.rpow_one]

theorem resolves_batchAA : ∀ r ∈ batchAA, Resolves demoBeacons r.mac := by
  simp [batchAA, Resolves, demoBeacons, toUpperCase]

theorem estimatePosition_batchAA :
    estimatePosition realMath demoBeacons batchAA = some estimateAA := by
  obtain ⟨c, hc, he⟩ := estimatePosition_of_valid realMath demoBeacons batchAA
    (by simp [batchAA]) resolves_batchAA
  have hb : buildReadings realMath demoBeacons batchAA =
      [ { x := 0, y := 0, rssi := -59, d := 1 }, { x := 0, y := 0, rssi := -87, d := 10 } ] := by
    simp [buildReadings, getBeaconByMac, demoBeacons, batchAA, rssiToDistance_at_reference,
      rssiToDistance_at_minus_87, MAX_DISTANCE, List.find?, toUpperCase]
    norm_num
  rw [he]
  rw [hb] at hc ⊢
  rw [trilaterateRaw_eq_none_of_short _
    (by rw [trilatReadings_length_lt_three_iff]; simp)]
  have hcen : c = { x := 0, y := 0 } := by
    simp [centroidPosition, centroidStep, clampToFloor, REAL_WIDTH, REAL_HEIGHT] at hc
    rw [← hc]
  rw [hcen]
  rfl

theorem calculateRssiChange_batchAA :
    (calculateRssiChange batchAA (some batchAA) : WithTop ℝ) = ((14 : ℝ) : WithTop ℝ) := by
  simp [calculateRssiChange, previousRssiMap, rssiChangeStep, mapSet, batchAA]
  norm_num

theorem hasSignificantChange_batchAA :
    hasSignificantChange realMath batchAA (some estimateAA)
      (some { position := some priorFix, previousValues := some batchAA }) = true := by
  simp only [hasSignificantChange, calculateRssiChange_batchAA, MIN_RSSI_CHANGE_THRESHOLD,
    ge_iff_le, WithTop.coe_le_coe]
  norm_num

end Eval

section Lemmas

variable {K : Type} [LinearOrderedField K]

omit [LinearOrderedField K] in
theorem foldl_mapSet_apply (l : List RawReading) (m0 : String → Option Int) (k : String) :
    l.foldl (fun m item => mapSet m (toUpperCase item.mac) item.rssi) m0 k =
      match l.reverse.find? (fun p => toUpperCase p.mac == k) with
      | some p => some p.rssi
      | none => m0 k := by
  induction l generalizing m0 with
  | nil => simp
  | cons a t ih =>
    rw [List.foldl_cons, ih, List.reverse_cons, List.find?_append]
    cases hfind : t.reverse.find? (fun p => toUpperCase p.mac == k) with
    | some p => simp
    | none =>
      by_cases hk : toUpperCase a.mac = k
      · simp [mapSet, hk]
      · have hk2 : ¬ k = toUpperCase a.mac := fun h => hk h.symm
        simp [mapSet, hk, hk2]

omit [LinearOrderedField K] in
theorem previousRssiMap_eq (previous : List RawReading) (mac : String) :
    previousRssiMap previous (toUpperCase mac) = specPriorRssi previous mac := by
  unfold previousRssiMap specPriorRssi
  rw [foldl_mapSet_apply]
  cases previous.reverse.find? (fun p => toUpperCase p.mac == toUpperCase mac) <;> rfl

omit [LinearOrderedField K] in
theorem specPriorRssi_isSome_iff (previous : List RawReading) (mac : String) :
    (specPriorRssi previous mac).isSome =
      previous.any (fun p => toUpperCase p.mac == toUpperCase mac) := by
  unfold specPriorRssi
  rw [Bool.eq_iff_iff]
  cases h : previous.reverse.find? (fun p => toUpperCase p.mac == toUpperCase mac) with
  | none =>
    rw [List.find?_eq_none] at h
    simp only [Option.map_none', Option.isSome_none, Bool.false_eq_true, false_iff]
    intro hany
    obtain ⟨p, hp, hpe⟩ := List.any_eq_true.mp hany
    exact h p (List.mem_reverse.mpr hp) hpe
  | some q =>
    have hq := List.find?_some h
    have hmem := List.mem_reverse.mp (List.mem_of_find?_eq_some h)
    simp only [Option.map_some', Option.isSome_some, true_iff]
    exact List.any_eq_true.mpr ⟨q, hmem, hq⟩

omit [LinearOrderedField K] in
theorem foldl_rssiChangeStep (previous current : List RawReading) (acc : Int × Nat) :
    current.foldl (rssiChangeStep (previousRssiMap previous)) acc =
      (acc.1 + ((specMatched current previous).map
          (fun c => |c.rssi - (specPriorRssi previous c.mac).getD 0|)).sum,
        acc.2 + (specMatched current previous).length) := by
  induction current generalizing acc with
  | nil => simp [specMatched]
  | cons c t ih =>
    rw [List.foldl_cons, ih]
    have hsome := specPriorRssi_isSome_iff previous c.mac
    unfold rssiChangeStep
    simp only [previousRssiMap_eq]
    cases hp : specPriorRssi previous c.mac with
    | none =>
      rw [hp] at hsome
      have hany : previous.any (fun p => toUpperCase p.mac == toUpperCase c.mac) = false := by
        simpa using hsome.symm
      simp [specMatched, List.filter_cons, hany]
    | some v =>
      rw [hp] at hsome
      have hany : previous.any (fun p => toUpperCase p.mac == toUpperCase c.mac) = true := by
        simpa using hsome.symm
      simp only [specMatched, List.filter_cons, hany, if_true, List.map_cons, List.sum_cons,
        List.length_cons, hp, Option.getD_some]
      ext
      · simp only; ring
      · simp only; omega

/-- The function `calculateRssiChange` computes the mean the specification describes. -/
theorem calculateRssiChange_eq_spec (current : List RawReading)
    (previous : Option (List RawReading)) :
    (calculateRssiChange current previous : WithTop K) = specMeanRssiChange current previous := by
  cases previous with
  | none => simp [calculateRssiChange, specMeanRssiChange, specMatched]
  | some prev =>
    unfold calculateRssiChange specMeanRssiChange
    simp only [Option.getD_some]
    by_cases hlen : prev.length = 0
    · have : prev = [] := List.length_eq_zero.mp hlen
      subst this
      simp [specMatched]
    · rw [if_neg hlen, foldl_rssiChangeStep]
      simp only [zero_add]
      by_cases hm : specMatched current prev = []
      · simp [hm]
      · have hl : (specMatched current prev).length ≠ 0 := by
          simpa using hm
        rw [if_neg hl, if_neg hm]

theorem calculatePositionDistance_eq_spec (newPosition : Option (PositionEstimate ℝ))
    (prior : PositionEstimate ℝ) :
    calculatePositionDistance realMath newPosition (some prior) =
      specPositionChange newPosition prior := by
  cases newPosition with
  | none => rfl
  | some p => simp [calculatePositionDistance, specPositionChange, realMath, sq]

theorem hasSignificantChange_with_prior (current : List RawReading)
    (newPosition : Option (PositionEstimate ℝ)) (prior : PositionEstimate ℝ)
    (prev : Option (List RawReading)) :
    hasSignificantChange realMath current newPosition
        (some { position := some prior, previousValues := prev }) = true ↔
      ((((5 : ℝ) : WithTop ℝ) ≤ specMeanRssiChange current prev ∧
          (((3 / 2 : ℝ) : ℝ) : WithTop ℝ) ≤ specPositionChange newPosition prior) ∨
        ((10 : ℝ) : WithTop ℝ) ≤ specMeanRssiChange current prev) := by
  have h10 : (MIN_RSSI_CHANGE_THRESHOLD * 2 : ℝ) = 10 := by
    norm_num [MIN_RSSI_CHANGE_THRESHOLD]
  simp only [hasSignificantChange, calculateRssiChange_eq_spec,
    calculatePositionDistance_eq_spec, h10, ge_iff_le, Bool.or_eq_true, Bool.and_eq_true,
    decide_eq_true_eq]
  simp only [MIN_RSSI_CHANGE_THRESHOLD, MIN_DISTANCE_CHANGE]

omit [LinearOrderedField K] in
theorem specMatched_self (current : List RawReading) : specMatched current current = current := by
  unfold specMatched
  rw [List.filter_eq_self]
  intro c hc
  exact List.any_eq_true.mpr ⟨c, hc, by simp⟩

omit [LinearOrderedField K] in
theorem specPriorRssi_self (current : List RawReading)
    (hcons : ∀ a ∈ current, ∀ b ∈ current,
      toUpperCase a.mac = toUpperCase b.mac → a.rssi = b.rssi)
    (c : RawReading) (hc : c ∈ current) : specPriorRssi current c.mac = some c.rssi := by
  unfold specPriorRssi
  cases h : current.reverse.find? (fun p => toUpperCase p.mac == toUpperCase c.mac) with
  | none =>
    rw [List.find?_eq_none] at h
    exact absurd (by simp) (h c (List.mem_reverse.mpr hc))
  | some q =>
    have hq := List.find?_some h
    have hmem := List.mem_reverse.mp (List.mem_of_find?_eq_some h)
    simp only [Option.map_some', Option.some.injEq]
    exact hcons q hmem c hc (by simpa using hq)

/-- A batch compared with itself has mean RSSI change 0, provided it is not empty and no MAC
is reported with two different RSSI values. -/
theorem calculateRssiChange_self (current : List RawReading) (hne : current ≠ [])
    (hcons : ∀ a ∈ current, ∀ b ∈ current,
      toUpperCase a.mac = toUpperCase b.mac → a.rssi = b.rssi) :
    (calculateRssiChange current (some current) : WithTop K) = ((0 : K) : WithTop K) := by
  rw [calculateRssiChange_eq_spec]
  unfold specMeanRssiChange
  simp only [Option.getD_some, specMatched_self, if_neg hne]
  have hsum : (current.map (fun c => |c.rssi - (specPriorRssi current c.mac).getD 0|)).sum
      = 0 := by
    apply List.sum_eq_zero
    intro x hx
    obtain ⟨c, hc, rfl⟩ := List.mem_map.mp hx
    rw [specPriorRssi_self current hcons c hc]
    simp
  rw [hsum]
  simp

theorem hasSignificantChange_self (M : JsMath K) (current : List RawReading)
    (hne : current ≠ [])
    (hcons : ∀ a ∈ current, ∀ b ∈ current,
      toUpperCase a.mac = toUpperCase b.mac → a.rssi = b.rssi)
    (newPosition : Option (PositionEstimate K)) (prior : PositionEstimate K) :
    hasSignificantChange M current newPosition
      (some { position := some prior, previousValues := some current }) = false := by
  have h0 := calculateRssiChange_self (K := K) current hne hcons
  simp only [hasSignificantChange, h0, MIN_RSSI_CHANGE_THRESHOLD, ge_iff_le,
    WithTop.coe_le_coe]
  norm_num

omit [LinearOrderedField K] in
theorem specMatched_eq_nil_of_disjoint (current previous : List RawReading)
    (hdis : ∀ c ∈ current, ∀ p ∈ previous, toUpperCase c.mac ≠ toUpperCase p.mac) :
    specMatched current previous = [] := by
  unfold specMatched
  rw [List.filter_eq_nil_iff]
  intro c hc hany
  obtain ⟨p, hp, hpe⟩ := List.any_eq_true.mp hany
  have heq : toUpperCase p.mac = toUpperCase c.mac := by simpa using hpe
  exact hdis c hc p hp heq.symm

theorem calculateRssiChange_of_disjoint (current previous : List RawReading)
    (hdis : ∀ c ∈ current, ∀ p ∈ previous, toUpperCase c.mac ≠ toUpperCase p.mac) :
    (calculateRssiChange current (some previous) : WithTop K) = ⊤ := by
  rw [calculateRssiChange_eq_spec]
  simp [specMeanRssiChange, specMatched_eq_nil_of_disjoint current previous hdis]

theorem foldl_trilatStep_orthogonal (a b : K) (ref : Reading K) (rest : List (Reading K))
    (acc : NormalEq K)
    (h : ∀ p ∈ rest, a * (p.x - ref.x) + b * (p.y - ref.y) = 0)
    (hacc : a * acc.A11 + b * acc.A12 = 0 ∧ a * acc.A12 + b * acc.A22 = 0) :
    a * (rest.foldl (trilatStep ref) acc).A11 + b * (rest.foldl (trilatStep ref) acc).A12 = 0 ∧
      a * (rest.foldl (trilatStep ref) acc).A12 + b * (rest.foldl (trilatStep ref) acc).A22
        = 0 := by
  induction rest generalizing acc with
  | nil => exact hacc
  | cons p t ih =>
    rw [List.foldl_cons]
    apply ih
    · intro q hq
      exact h q (List.mem_cons_of_mem _ hq)
    · have hp := h p (List.mem_cons_self _ _)
      obtain ⟨h1, h2⟩ := hacc
      simp only [trilatStep]
      constructor
      · linear_combination h1 + (p.x - ref.x) * hp
      · linear_combination h2 + (p.y - ref.y) * hp

theorem trilatDet_eq_zero_of_collinear (readings : List (Reading K))
    (hcol : Collinear (usedReadings readings)) : trilatDet readings = 0 := by
  obtain ⟨a, b, c, hab, hline⟩ := hcol
  unfold trilatDet
  cases hused : usedReadings readings with
  | nil => rfl
  | cons ref rest =>
    rw [hused] at hline
    have href := hline ref (List.mem_cons_self _ _)
    have hrest : ∀ p ∈ rest, a * (p.x - ref.x) + b * (p.y - ref.y) = 0 := by
      intro p hp
      have := hline p (List.mem_cons_of_mem _ hp)
      linear_combination this - href
    obtain ⟨h1, h2⟩ := foldl_trilatStep_orthogonal a b ref rest
      { A11 := 0, A12 := 0, A22 := 0, B1 := 0, B2 := 0 } hrest (by simp)
    simp only [normalEquations]
    set s := rest.foldl (trilatStep ref) { A11 := 0, A12 := 0, A22 := 0, B1 := 0, B2 := 0 }
    have ha : a * (s.A11 * s.A22 - s.A12 * s.A12) = 0 := by
      linear_combination s.A22 * h1 - s.A12 * h2
    have hb : b * (s.A11 * s.A22 - s.A12 * s.A12) = 0 := by
      linear_combination s.A11 * h2 - s.A12 * h1
    rcases hab with h | h
    · exact (mul_eq_zero.mp ha).resolve_left h
    · exact (mul_eq_zero.mp hb).resolve_left h

theorem trilaterateRaw_eq_none_of_collinear (readings : List (Reading K))
    (hcol : Collinear (usedReadings readings)) : trilaterateRaw readings = none := by
  rw [trilaterateRaw_eq_none_iff, trilatDet_eq_zero_of_collinear readings hcol]
  right
  norm_num

theorem centroidPosition_singleton (r : Reading K) :
    centroidPosition [r] = some (clampToFloor { x := r.x, y := r.y }) := by
  have hpos : 0 < r.d * r.d + 1 / 1000000 := by
    have := mul_self_nonneg r.d
    linarith
  have hw : (1 / (r.d * r.d + 1 / 1000000) : K) ≠ 0 := by
    exact (one_div_pos.mpr hpos).ne'
  simp only [centroidPosition, List.length_singleton, one_ne_zero, if_false, List.foldl_cons,
    List.foldl_nil, centroidStep, zero_add]
  rw [mul_div_cancel_left₀ _ hw, mul_div_cancel_left₀ _ hw]

theorem clampToFloor_of_inside (p : Pos K) (hx0 : 0 ≤ p.x) (hx1 : p.x ≤ 40) (hy0 : 0 ≤ p.y)
    (hy1 : p.y ≤ 30) : clampToFloor p = p := by
  cases p with
  | mk x y =>
    simp only at hx0 hx1 hy0 hy1
    simp only [clampToFloor, REAL_WIDTH, REAL_HEIGHT, min_eq_right hx1, min_eq_right hy1,
      max_eq_right hx0, max_eq_right hy0]

theorem buildReadings_forall₂ (M : JsMath K) (beacons : List (Beacon K))
    (posData : List RawReading) (hv : ∀ r ∈ posData, Resolves beacons r.mac) :
    List.Forall₂
      (fun raw rd => ∃ b, getBeaconByMac beacons raw.mac = some b ∧
        rd = { x := b.x, y := b.y, rssi := raw.rssi,
               d := min (M.pow 10 ((-59 - (raw.rssi : K)) / (10 * (28 / 10)))) 40 })
      posData (buildReadings M beacons posData) := by
  induction posData with
  | nil => exact List.Forall₂.nil
  | cons r rest ih =>
    have hr := hv r (List.mem_cons_self _ _)
    have hrest : ∀ q ∈ rest, Resolves beacons q.mac := fun q hq =>
      hv q (List.mem_cons_of_mem _ hq)
    obtain ⟨b, hb⟩ := Option.isSome_iff_exists.mp ((getBeaconByMac_isSome_iff beacons r.mac).mpr hr)
    have ih2 := ih hrest
    simp only [buildReadings] at ih2 ⊢
    rw [List.filterMap_cons]
    simp only [hb]
    exact List.Forall₂.cons ⟨b, hb, rfl⟩ ih2

theorem mem_buildReadings (M : JsMath K) (beacons : List (Beacon K))
    (posData : List RawReading) (rd : Reading K)
    (hrd : rd ∈ buildReadings M beacons posData) :
    ∃ raw ∈ posData, ∃ b, getBeaconByMac beacons raw.mac = some b ∧
      rd = { x := b.x, y := b.y, rssi := raw.rssi,
             d := min (M.pow 10 ((-59 - (raw.rssi : K)) / (10 * (28 / 10)))) 40 } := by
  unfold buildReadings at hrd
  obtain ⟨raw, hraw, h⟩ := List.mem_filterMap.mp hrd
  refine ⟨raw, hraw, ?_⟩
  cases hb : getBeaconByMac beacons raw.mac with
  | none => simp [hb] at h
  | some b =>
    simp only [hb, Option.some.injEq] at h
    exact ⟨b, rfl, h.symm⟩

omit [LinearOrderedField K] in
theorem trilatReadings_eq_spec (readings : List (Reading K)) :
    trilatReadings readings = specTrilatInput readings := by
  simp only [trilatReadings, strongReadings, specTrilatInput, MIN_RSSI_FOR_TRILAT, ge_iff_le]

theorem estimatePosition_of_short (M : JsMath K) (beacons : List (Beacon K))
    (posData : List RawReading) (hne : posData ≠ []) (hlen : posData.length < 3)
    (hv : ∀ r ∈ posData, Resolves beacons r.mac) :
    ∃ c, centroidPosition (buildReadings M beacons posData) = some c ∧
      estimatePosition M beacons posData =
        some { x := c.x, y := c.y, method := Method.centroid_only, error := ⊤ } := by
  obtain ⟨c, hc, he⟩ := estimatePosition_of_valid M beacons posData hne hv
  have hb := buildReadings_length M beacons posData ((validateAllBeaconsExist_iff _ _).mpr hv)
  have hshort : (trilatReadings (buildReadings M beacons posData)).length < 3 := by
    rw [trilatReadings_length_lt_three_iff, hb]
    exact hlen
  rw [trilaterateRaw_eq_none_of_short _ hshort] at he
  exact ⟨c, hc, he⟩

theorem sorted_insertionSort_by_d (readings : List (Reading K)) :
    List.Pairwise (fun a b => a.d ≤ b.d) (readings.insertionSort (fun a b => a.d ≤ b.d)) := by
  haveI : IsTotal (Reading K) (fun a b => a.d ≤ b.d) := ⟨fun a b => le_total a.d b.d⟩
  haveI : IsTrans (Reading K) (fun a b => a.d ≤ b.d) := ⟨fun _ _ _ h1 h2 => le_trans h1 h2⟩
  exact List.sorted_insertionSort (fun a b => a.d ≤ b.d) readings

theorem usedReadings_append_drop (readings : List (Reading K)) :
    List.Perm
      (usedReadings readings ++ (readings.insertionSort (fun a b => a.d ≤ b.d)).drop 5)
      readings := by
  unfold usedReadings
  rw [List.take_append_drop]
  exact List.perm_insertionSort _ readings

theorem usedReadings_length (readings : List (Reading K)) :
    (usedReadings readings).length = min readings.length 5 := by
  unfold usedReadings
  rw [List.length_take, List.length_insertionSort, min_comm]

theorem usedReadings_pairwise (readings : List (Reading K)) :
    List.Pairwise (fun a b => a.d ≤ b.d) (usedReadings readings) :=
  (sorted_insertionSort_by_d readings).sublist (List.take_sublist 5 _)

theorem usedReadings_le_dropped (readings : List (Reading K)) :
    ∀ o ∈ (readings.insertionSort (fun a b => a.d ≤ b.d)).drop 5,
      ∀ k ∈ usedReadings readings, k.d ≤ o.d := by
  have hs := sorted_insertionSort_by_d readings
  rw [← List.take_append_drop 5 (readings.insertionSort (fun a b => a.d ≤ b.d)),
    List.pairwise_append] at hs
  intro o ho k hk
  exact hs.2.2 k hk o ho

theorem usedReadings_head_min (readings : List (Reading K)) (ref : Reading K)
    (rest : List (Reading K)) (h : usedReadings readings = ref :: rest) :
    ∀ r ∈ readings, ref.d ≤ r.d := by
  intro r hr
  have hperm := usedReadings_append_drop readings
  have hmem : r ∈ usedReadings readings ++
      (readings.insertionSort (fun a b => a.d ≤ b.d)).drop 5 := hperm.mem_iff.mpr hr
  have href : ref ∈ usedReadings readings := by
    rw [h]
    exact List.mem_cons_self _ _
  rcases List.mem_append.mp hmem with hu | hd
  · have hp := usedReadings_pairwise readings
    rw [h] at hp hu
    rcases List.mem_cons.mp hu with rfl | hrest
    · exact le_refl _
    · exact (List.pairwise_cons.mp hp).1 r hrest
  · exact usedReadings_le_dropped readings r hd ref href

theorem trilaterateRaw_used (readings : List (Reading K)) (raw : TrilatResult K)
    (h : trilaterateRaw readings = some raw) : raw.used = usedReadings readings := by
  unfold trilaterateRaw at h
  split at h
  · simp at h
  · split at h
    · simp at h
    · rename_i ref rest hused
      simp only at h
      split at h
      · simp at h
      · rw [hused]
        cases h
        rfl

theorem foldl_trilatStep_sums (ref : Reading K) (rest : List (Reading K)) (acc : NormalEq K) :
    (rest.foldl (trilatStep ref) acc).A11 = acc.A11 + (specNormalEq ref rest).A11 ∧
    (rest.foldl (trilatStep ref) acc).A12 = acc.A12 + (specNormalEq ref rest).A12 ∧
    (rest.foldl (trilatStep ref) acc).A22 = acc.A22 + (specNormalEq ref rest).A22 ∧
    (rest.foldl (trilatStep ref) acc).B1 = acc.B1 + (specNormalEq ref rest).B1 ∧
    (rest.foldl (trilatStep ref) acc).B2 = acc.B2 + (specNormalEq ref rest).B2 := by
  induction rest generalizing acc with
  | nil => simp [specNormalEq]
  | cons p t ih =>
    rw [List.foldl_cons]
    obtain ⟨h1, h2, h3, h4, h5⟩ := ih (trilatStep ref acc p)
    rw [h1, h2, h3, h4, h5]
    simp only [trilatStep, specNormalEq, specDx, specDy, specRhs, List.map_cons, List.sum_cons]
    refine ⟨?_, ?_, ?_, ?_, ?_⟩ <;> ring

/-- The loop of `trilaterateRaw` computes the sums of the normal equations. -/
theorem normalEquations_eq_spec (ref : Reading K) (rest : List (Reading K)) :
    normalEquations ref rest = specNormalEq ref rest := by
  obtain ⟨h1, h2, h3, h4, h5⟩ := foldl_trilatStep_sums ref rest
    { A11 := 0, A12 := 0, A22 := 0, B1 := 0, B2 := 0 }
  simp only [zero_add] at h1 h2 h3 h4 h5
  unfold normalEquations
  cases hs : rest.foldl (trilatStep ref) { A11 := 0, A12 := 0, A22 := 0, B1 := 0, B2 := 0 } with
  | mk a b c d e =>
    rw [hs] at h1 h2 h3 h4 h5
    simp only at h1 h2 h3 h4 h5
    cases hn : specNormalEq ref rest with
    | mk a2 b2 c2 d2 e2 =>
      rw [hn] at h1 h2 h3 h4 h5
      simp only at h1 h2 h3 h4 h5
      rw [h1, h2, h3, h4, h5]

/-- What a successful `trilaterateRaw` returns. -/
theorem trilaterateRaw_eq_some (readings : List (Reading K)) (raw : TrilatResult K)
    (h : trilaterateRaw readings = some raw) :
    ∃ ref rest, usedReadings readings = ref :: rest ∧ raw.used = ref :: rest ∧
      3 ≤ readings.length ∧
      trilatDet readings = (normalEquations ref rest).A11 * (normalEquations ref rest).A22
        - (normalEquations ref rest).A12 * (normalEquations ref rest).A12 ∧
      1 / 1000000 ≤ |trilatDet readings| ∧
      raw.x = (normalEquations ref rest).A22 / trilatDet readings * (normalEquations ref rest).B1
        + -(normalEquations ref rest).A12 / trilatDet readings * (normalEquations ref rest).B2 ∧
      raw.y = -(normalEquations ref rest).A12 / trilatDet readings * (normalEquations ref rest).B1
        + (normalEquations ref rest).A11 / trilatDet readings * (normalEquations ref rest).B2 := by
  unfold trilaterateRaw at h
  split at h
  · simp at h
  · rename_i hlen
    split at h
    · simp at h
    · rename_i ref rest hused
      simp only at h
      split at h
      · simp at h
      · rename_i hdet
        have hd : trilatDet readings = (normalEquations ref rest).A11 * (normalEquations ref rest).A22
            - (normalEquations ref rest).A12 * (normalEquations ref rest).A12 := by
          simp only [trilatDet, hused]
        refine ⟨ref, rest, hused, ?_, by omega, hd, ?_, ?_, ?_⟩
        · cases h; rfl
        · rw [hd]; exact not_lt.mp hdet
        · cases h; rw [hd]
        · cases h; rw [hd]

theorem specNormalEq_A11_nonneg (ref : Reading K) (rest : List (Reading K)) :
    0 ≤ (specNormalEq ref rest).A11 := by
  apply List.sum_nonneg
  intro v hv
  obtain ⟨p, -, rfl⟩ := List.mem_map.mp hv
  exact sq_nonneg _

theorem specNormalEq_A22_nonneg (ref : Reading K) (rest : List (Reading K)) :
    0 ≤ (specNormalEq ref rest).A22 := by
  apply List.sum_nonneg
  intro v hv
  obtain ⟨p, -, rfl⟩ := List.mem_map.mp hv
  exact sq_nonneg _

/-- The quadratic form of the normal matrix is a sum of squares. -/
theorem specNormalEq_quadratic_form (ref : Reading K) (rest : List (Reading K)) (u v : K) :
    (rest.map (fun p => (specDx ref p * u + specDy ref p * v) ^ 2)).sum =
      (specNormalEq ref rest).A11 * u ^ 2 + 2 * (specNormalEq ref rest).A12 * u * v
        + (specNormalEq ref rest).A22 * v ^ 2 := by
  induction rest with
  | nil => simp [specNormalEq]
  | cons p t ih =>
    simp only [specNormalEq, List.map_cons, List.sum_cons] at ih ⊢
    rw [ih]
    ring

theorem specNormalEq_quadratic_form_nonneg (ref : Reading K) (rest : List (Reading K))
    (u v : K) :
    0 ≤ (specNormalEq ref rest).A11 * u ^ 2 + 2 * (specNormalEq ref rest).A12 * u * v
        + (specNormalEq ref rest).A22 * v ^ 2 := by
  rw [← specNormalEq_quadratic_form]
  apply List.sum_nonneg
  intro w hw
  obtain ⟨p, -, rfl⟩ := List.mem_map.mp hw
  exact sq_nonneg _

/-- The determinant of the normal matrix is never negative (Cauchy-Schwarz). -/
theorem specNormalEq_det_nonneg (ref : Reading K) (rest : List (Reading K)) :
    0 ≤ (specNormalEq ref rest).A11 * (specNormalEq ref rest).A22
      - (specNormalEq ref rest).A12 * (specNormalEq ref rest).A12 := by
  have h11 := specNormalEq_A11_nonneg ref rest
  have h22 := specNormalEq_A22_nonneg ref rest
  have hq := specNormalEq_quadratic_form_nonneg ref rest
  set a := (specNormalEq ref rest).A11
  set b := (specNormalEq ref rest).A12
  set c := (specNormalEq ref rest).A22
  by_contra hneg
  push_neg at hneg
  have h1 := hq b (-a)
  have h2 := hq c (-b)
  have ha : a = 0 := by
    by_contra hne
    have hpos : 0 < a := lt_of_le_of_ne h11 (Ne.symm hne)
    have : a * (a * c - b * b) < 0 := mul_neg_of_pos_of_neg hpos hneg
    nlinarith
  have hc : c = 0 := by
    by_contra hne
    have hpos : 0 < c := lt_of_le_of_ne h22 (Ne.symm hne)
    have : c * (a * c - b * b) < 0 := mul_neg_of_pos_of_neg hpos hneg
    nlinarith
  have h3 := hq 1 1
  have h4 := hq 1 (-1)
  rw [ha, hc] at h3 h4 hneg
  have hb : b = 0 := by linarith
  rw [hb] at hneg
  simp at hneg

/-- The residual sum at any point, expanded around a point `(x, y)`. -/
theorem residualSumSq_expand (ref : Reading K) (rest : List (Reading K)) (x y x' y' : K) :
    residualSumSq ref rest x' y' =
      residualSumSq ref rest x y
        + 2 * (x' - x) * ((specNormalEq ref rest).A11 * x + (specNormalEq ref rest).A12 * y
            - (specNormalEq ref rest).B1)
        + 2 * (y' - y) * ((specNormalEq ref rest).A12 * x + (specNormalEq ref rest).A22 * y
            - (specNormalEq ref rest).B2)
        + ((specNormalEq ref rest).A11 * (x' - x) ^ 2
            + 2 * (specNormalEq ref rest).A12 * (x' - x) * (y' - y)
            + (specNormalEq ref rest).A22 * (y' - y) ^ 2) := by
  induction rest with
  | nil => simp [residualSumSq, specNormalEq]
  | cons p t ih =>
    simp only [residualSumSq, specNormalEq, List.map_cons, List.sum_cons] at ih ⊢
    rw [ih]
    ring

/-- With a positive determinant the quadratic form vanishes only at the origin. -/
theorem specNormalEq_quadratic_form_pos (ref : Reading K) (rest : List (Reading K))
    (hdet : 0 < (specNormalEq ref rest).A11 * (specNormalEq ref rest).A22
      - (specNormalEq ref rest).A12 * (specNormalEq ref rest).A12)
    (u v : K) (huv : u ≠ 0 ∨ v ≠ 0) :
    0 < (specNormalEq ref rest).A11 * u ^ 2 + 2 * (specNormalEq ref rest).A12 * u * v
        + (specNormalEq ref rest).A22 * v ^ 2 := by
  have h11 := specNormalEq_A11_nonneg ref rest
  have h22 := specNormalEq_A22_nonneg ref rest
  have hq := specNormalEq_quadratic_form_nonneg ref rest u v
  set a := (specNormalEq ref rest).A11
  set b := (specNormalEq ref rest).A12
  set c := (specNormalEq ref rest).A22
  by_contra hnot
  have hzero : a * u ^ 2 + 2 * b * u * v + c * v ^ 2 = 0 := le_antisymm (not_lt.mp hnot) hq
  have hv : (a * c - b * b) * v ^ 2 = 0 := by
    have hid : a * (a * u ^ 2 + 2 * b * u * v + c * v ^ 2)
        = (a * u + b * v) ^ 2 + (a * c - b * b) * v ^ 2 := by ring
    rw [hzero, mul_zero] at hid
    have h1 : 0 ≤ (a * u + b * v) ^ 2 := sq_nonneg _
    have h2 : 0 ≤ (a * c - b * b) * v ^ 2 := mul_nonneg hdet.le (sq_nonneg _)
    linarith
  have hu : (a * c - b * b) * u ^ 2 = 0 := by
    have hid : c * (a * u ^ 2 + 2 * b * u * v + c * v ^ 2)
        = (b * u + c * v) ^ 2 + (a * c - b * b) * u ^ 2 := by ring
    rw [hzero, mul_zero] at hid
    have h1 : 0 ≤ (b * u + c * v) ^ 2 := sq_nonneg _
    have h2 : 0 ≤ (a * c - b * b) * u ^ 2 := mul_nonneg hdet.le (sq_nonneg _)
    linarith
  have hv0 : v = 0 := by
    rcases mul_eq_zero.mp hv with h | h
    · exact absurd h hdet.ne'
    · exact pow_eq_zero_iff (two_ne_zero) |>.mp h
  have hu0 : u = 0 := by
    rcases mul_eq_zero.mp hu with h | h
    · exact absurd h hdet.ne'
    · exact pow_eq_zero_iff (two_ne_zero) |>.mp h
  rcases huv with h | h
  · exact h hu0
  · exact h hv0

theorem mem_of_mem_usedReadings (readings : List (Reading K)) (r : Reading K)
    (h : r ∈ usedReadings readings) : r ∈ readings := by
  unfold usedReadings at h
  exact (List.perm_insertionSort _ readings).mem_iff.mp (List.mem_of_mem_take h)

theorem specRhs_of_exact (q : Pos K) (ref p : Reading K)
    (href : ref.d * ref.d = (q.x - ref.x) ^ 2 + (q.y - ref.y) ^ 2)
    (hp : p.d * p.d = (q.x - p.x) ^ 2 + (q.y - p.y) ^ 2) :
    specRhs ref p = specDx ref p * q.x + specDy ref p * q.y := by
  unfold specRhs specDx specDy
  linear_combination (1 / 2 : K) * href - (1 / 2 : K) * hp

theorem specNormalEq_of_exact (q : Pos K) (ref : Reading K) (rest : List (Reading K))
    (h : ∀ p ∈ rest, specRhs ref p = specDx ref p * q.x + specDy ref p * q.y) :
    (specNormalEq ref rest).B1
        = (specNormalEq ref rest).A11 * q.x + (specNormalEq ref rest).A12 * q.y ∧
      (specNormalEq ref rest).B2
        = (specNormalEq ref rest).A12 * q.x + (specNormalEq ref rest).A22 * q.y := by
  induction rest with
  | nil => simp [specNormalEq]
  | cons p t ih =>
    obtain ⟨h1, h2⟩ := ih (fun r hr => h r (List.mem_cons_of_mem _ hr))
    have hp := h p (List.mem_cons_self _ _)
    simp only [specNormalEq, List.map_cons, List.sum_cons] at h1 h2 ⊢
    rw [h1, h2, hp]
    constructor <;> ring

/-- Exact recovery: readings whose distances are those of a point `q` solve to `q`. -/
theorem trilaterateRaw_of_exact (q : Pos K) (readings : List (Reading K))
    (raw : TrilatResult K)
    (hd : ∀ r ∈ readings, r.d * r.d = (q.x - r.x) ^ 2 + (q.y - r.y) ^ 2)
    (h : trilaterateRaw readings = some raw) : raw.x = q.x ∧ raw.y = q.y := by
  obtain ⟨ref, rest, hused, -, -, hdet, habs, hx, hy⟩ := trilaterateRaw_eq_some readings raw h
  rw [normalEquations_eq_spec] at hdet hx hy
  have hne : trilatDet readings ≠ 0 := by
    intro h0
    rw [h0, abs_zero] at habs
    norm_num at habs
  have hmem : ∀ p ∈ ref :: rest, p ∈ readings := by
    intro p hp
    rw [← hused] at hp
    exact mem_of_mem_usedReadings readings p hp
  have href := hd ref (hmem ref (List.mem_cons_self _ _))
  have hrest : ∀ p ∈ rest, specRhs ref p = specDx ref p * q.x + specDy ref p * q.y := by
    intro p hp
    exact specRhs_of_exact q ref p href (hd p (hmem p (List.mem_cons_of_mem _ hp)))
  obtain ⟨hB1, hB2⟩ := specNormalEq_of_exact q ref rest hrest
  constructor
  · rw [hx, hB1, hB2]
    field_simp
    rw [hdet]
    ring
  · rw [hy, hB1, hB2]
    field_simp
    rw [hdet]
    ring

theorem foldl_add_eq_zero {α : Type} (f : α → K) (l : List α) (h : ∀ a ∈ l, f a = 0) :
    l.foldl (fun acc a => acc + f a) 0 = 0 := by
  induction l with
  | nil => rfl
  | cons a t ih =>
    rw [List.foldl_cons, h a (List.mem_cons_self _ _), add_zero]
    exact ih (fun b hb => h b (List.mem_cons_of_mem _ hb))

theorem trilatError_of_exact (q : Pos ℝ) (readings : List (Reading ℝ))
    (hne : readings ≠ [])
    (hd : ∀ r ∈ readings, r.d = Real.sqrt ((q.x - r.x) ^ 2 + (q.y - r.y) ^ 2)) :
    trilatError realMath (some q) readings = ((0 : ℝ) : WithTop ℝ) := by
  have hlen : readings.length ≠ 0 := by simpa using hne
  simp only [trilatError, hlen, if_false]
  rw [foldl_add_eq_zero (fun r => |realMath.hypot (q.x - r.x) (q.y - r.y) - r.d|) readings]
  · simp
  · intro r hr
    simp only [realMath, hd r hr, sq, sub_self, abs_zero]

theorem sqrt_twenty_five : Real.sqrt 25 = 5 := by
  rw [show (25 : ℝ) = 5 ^ 2 by norm_num]
  exact Real.sqrt_sq (by norm_num)

theorem sqrt_hundred : Real.sqrt 100 = 10 := by
  rw [show (100 : ℝ) = 10 ^ 2 by norm_num]
  exact Real.sqrt_sq (by norm_num)

theorem readingsCircle_exact :
    ∀ r ∈ readingsCircle,
      r.d = Real.sqrt ((({ x := 20, y := 15 } : Pos ℝ).x - r.x) ^ 2
        + (({ x := 20, y := 15 } : Pos ℝ).y - r.y) ^ 2) := by
  intro r hr
  simp only [readingsCircle, List.mem_cons, List.mem_singleton, List.not_mem_nil,
    or_false] at hr
  rcases hr with rfl | rfl | rfl <;> norm_num [sqrt_twenty_five]

theorem trilatDet_readingsCircle : trilatDet readingsCircle = 2500 := by
  have hu : usedReadings readingsCircle = readingsCircle := by
    simp [usedReadings, List.insertionSort, List.orderedInsert, readingsCircle]
  simp only [trilatDet, hu]
  simp [readingsCircle, normalEquations, trilatStep]
  norm_num

theorem centroid_weight_pos (r : Reading K) : 0 < r.d * r.d + 1 / 1000000 := by
  have := mul_self_nonneg r.d
  linarith

theorem foldl_centroidStep_mono (l : List (Reading K)) (acc : K × K × K) :
    acc.1 ≤ (l.foldl centroidStep acc).1 := by
  induction l generalizing acc with
  | nil => exact le_refl _
  | cons r t ih =>
    rw [List.foldl_cons]
    refine le_trans ?_ (ih (centroidStep acc r))
    have hw : 0 < 1 / (r.d * r.d + 1 / 1000000) := one_div_pos.mpr (centroid_weight_pos r)
    simp only [centroidStep]
    linarith

theorem foldl_centroidStep_pos (l : List (Reading K)) (hne : l ≠ []) :
    0 < (l.foldl centroidStep (0, 0, 0)).1 := by
  cases l with
  | nil => exact absurd rfl hne
  | cons r t =>
    rw [List.foldl_cons]
    refine lt_of_lt_of_le ?_ (foldl_centroidStep_mono t _)
    have hw : 0 < 1 / (r.d * r.d + 1 / 1000000) := one_div_pos.mpr (centroid_weight_pos r)
    simp only [centroidStep, zero_add]
    exact hw

theorem trilatError_ne_top_iff (M : JsMath K) (pos : Option (Pos K))
    (readings : List (Reading K)) :
    trilatError M pos readings ≠ ⊤ ↔ pos ≠ none ∧ 0 < readings.length := by
  unfold trilatError
  cases pos with
  | none => simp
  | some p =>
    by_cases h : readings.length = 0
    · simp [h]
    · simp only [h, if_false, ne_eq, WithTop.coe_ne_top, not_false_eq_true, true_iff]
      exact ⟨by simp, Nat.pos_of_ne_zero h⟩

theorem foldl_add_eq_sum {α : Type} (f : α → K) (l : List α) (a : K) :
    l.foldl (fun acc x => acc + f x) a = a + (l.map f).sum := by
  induction l generalizing a with
  | nil => simp
  | cons x t ih =>
    rw [List.foldl_cons, ih, List.map_cons, List.sum_cons, add_assoc]

/-- The function `trilatError` computes the mean error the specification describes. -/
theorem trilatError_eq_spec (pos : Pos ℝ) (readings : List (Reading ℝ))
    (hne : readings ≠ []) :
    trilatError realMath (some pos) readings = ((specMeanError pos readings : ℝ) : WithTop ℝ) := by
  have hlen : readings.length ≠ 0 := by simpa using hne
  simp only [trilatError, hlen, if_false, specMeanError]
  rw [foldl_add_eq_sum (fun r => |realMath.hypot (pos.x - r.x) (pos.y - r.y) - r.d|)
    readings 0, zero_add]
  simp only [realMath, sq]

theorem specMeanError_perm (pos : Pos ℝ) (l₁ l₂ : List (Reading ℝ)) (h : List.Perm l₁ l₂) :
    specMeanError pos l₁ = specMeanError pos l₂ := by
  unfold specMeanError
  rw [(h.map _).sum_eq, h.length_eq]

theorem usedReadings_perm_of_le_five (readings : List (Reading K))
    (h : readings.length ≤ 5) : List.Perm (usedReadings readings) readings := by
  unfold usedReadings
  rw [List.take_of_length_le (by rw [List.length_insertionSort]; exact h)]
  exact List.perm_insertionSort _ readings

theorem estimatePosition_some_valid (M : JsMath K) (beacons : List (Beacon K))
    (posData : List RawReading) (e : PositionEstimate K)
    (h : estimatePosition M beacons posData = some e) :
    posData ≠ [] ∧ ∀ r ∈ posData, Resolves beacons r.mac := by
  unfold estimatePosition at h
  split at h
  · simp at h
  · rename_i hval
    simp only at h
    split at h
    · simp at h
    · rename_i hlen
      have hv : validateAllBeaconsExist beacons posData = true := by
        simpa using hval
      refine ⟨?_, (validateAllBeaconsExist_iff _ _).mp hv⟩
      rintro rfl
      exact hlen (by simp [buildReadings])

/-- The error field of an estimate for which `trilaterateRaw` produced a solution. -/
theorem estimatePosition_error (M : JsMath K) (beacons : List (Beacon K))
    (posData : List RawReading) (e : PositionEstimate K) (raw : TrilatResult K)
    (he : estimatePosition M beacons posData = some e)
    (hraw : trilaterateRaw (trilatReadings (buildReadings M beacons posData)) = some raw) :
    e.error = trilatError M (some (clampToFloor { x := raw.x, y := raw.y }))
      (trilatReadings (buildReadings M beacons posData)) := by
  obtain ⟨hne, hv⟩ := estimatePosition_some_valid M beacons posData e he
  obtain ⟨c, -, he2⟩ := estimatePosition_of_valid M beacons posData hne hv
  rw [he2, hraw] at he
  simp only at he
  split at he <;> (cases he; rfl)

theorem buildReadings_batchRing :
    buildReadings realMath beaconsRing batchRing = readingsRing := by
  simp [buildReadings, getBeaconByMac, beaconsRing, batchRing, rssiToDistance_at_reference,
    rssiToDistance_at_minus_87, MAX_DISTANCE, List.find?, toUpperCase, readingsRing, usedRing]
  norm_num

theorem resolves_batchRing : ∀ r ∈ batchRing, Resolves beaconsRing r.mac := by
  simp [batchRing, Resolves, beaconsRing, toUpperCase]

theorem trilatReadings_readingsRing : trilatReadings readingsRing = readingsRing := by
  simp [trilatReadings, strongReadings, MIN_RSSI_FOR_TRILAT, readingsRing, usedRing]

theorem usedReadings_readingsRing : usedReadings readingsRing = usedRing := by
  simp [usedReadings, List.insertionSort, List.orderedInsert, readingsRing, usedRing]

theorem trilaterateRaw_readingsRing :
    trilaterateRaw readingsRing = some { x := 20, y := 15, used := usedRing } := by
  have hlen : ¬ readingsRing.length < 3 := by simp [readingsRing, usedRing]
  simp only [trilaterateRaw, hlen, if_false, usedReadings_readingsRing]
  simp [usedRing, normalEquations, trilatStep]
  norm_num [abs_of_nonneg]

theorem clampToFloor_twenty_fifteen :
    clampToFloor ({ x := 20, y := 15 } : Pos ℝ) = { x := 20, y := 15 } :=
  clampToFloor_of_inside _ (by norm_num) (by norm_num) (by norm_num) (by norm_num)

theorem specMeanError_usedRing : specMeanError { x := 20, y := 15 } usedRing = 4 := by
  simp [specMeanError, usedRing]
  norm_num [sqrt_twenty_five]

theorem specMeanError_readingsRing :
    specMeanError { x := 20, y := 15 } readingsRing = 10 / 3 := by
  simp [specMeanError, readingsRing, usedRing]
  norm_num [sqrt_twenty_five, sqrt_hundred]

theorem estimatePosition_batchRing :
    estimatePosition realMath beaconsRing batchRing =
      some { x := 20, y := 15, method := Method.trilateration,
             error := ((10 / 3 : ℝ) : WithTop ℝ) } := by
  obtain ⟨c, -, he⟩ := estimatePosition_of_valid realMath beaconsRing batchRing
    (by simp [batchRing]) resolves_batchRing
  rw [he, buildReadings_batchRing, trilatReadings_readingsRing, trilaterateRaw_readingsRing]
  simp only [clampToFloor_twenty_fifteen, MAX_MEAN_ERROR]
  rw [trilatError_eq_spec _ _ (by simp [readingsRing]), specMeanError_readingsRing]
  rw [if_pos]
  rw [WithTop.coe_le_coe]
  norm_num

omit [LinearOrderedField K] in
theorem getLastDevicePosition_cons_self (store : List (Row K)) (deviceId : String)
    (p : Option (PositionEstimate K)) (v : Option (List RawReading)) :
    getLastDevicePosition ({ device_id := deviceId, pos_data := p, values := v } :: store)
      deviceId = some { position := p, previousValues := v } := by
  simp [getLastDevicePosition]

theorem estimatePosition_isSome_of_valid (M : JsMath K) (beacons : List (Beacon K))
    (posData : List RawReading) (hne : posData ≠ [])
    (hv : ∀ r ∈ posData, Resolves beacons r.mac) :
    ∃ e, estimatePosition M beacons posData = some e := by
  obtain ⟨c, -, he⟩ := estimatePosition_of_valid M beacons posData hne hv
  rw [he]
  cases trilaterateRaw (trilatReadings (buildReadings M beacons posData)) with
  | none => exact ⟨_, rfl⟩
  | some raw =>
    simp only
    split <;> exact ⟨_, rfl⟩

theorem hasSignificantChange_of_small_change (M : JsMath K) (current : List RawReading)
    (newPosition : Option (PositionEstimate K)) (prior : PositionEstimate K)
    (prev : Option (List RawReading))
    (h : (calculateRssiChange current prev : WithTop K) < ((5 : K) : WithTop K)) :
    hasSignificantChange M current newPosition
      (some { position := some prior, previousValues := prev }) = false := by
  have h5 : ¬ ((5 : K) : WithTop K) ≤ calculateRssiChange current prev := not_le.mpr h
  have h10 : ¬ ((10 : K) : WithTop K) ≤ calculateRssiChange current prev := by
    intro hle
    have : ((5 : K) : WithTop K) ≤ ((10 : K) : WithTop K) := by
      rw [WithTop.coe_le_coe]
      norm_num
    exact h5 (le_trans this hle)
  have hten : ((5 : K) * 2) = 10 := by norm_num
  simp only [hasSignificantChange, ge_iff_le, MIN_RSSI_CHANGE_THRESHOLD, hten, h5, h10,
    decide_False, Bool.false_and, Bool.or_self]

/-- One report with a small RSSI change keeps the stored position and stores its readings. -/
theorem insertData_of_small_change (M : JsMath K) (beacons : List (Beacon K))
    (store : List (Row K)) (deviceId deviceEuid : String) (current prev : List RawReading)
    (prior : PositionEstimate K) (heuid : deviceEuid ≠ "")
    (hlast : getLastDevicePosition store deviceId =
      some { position := some prior, previousValues := some prev })
    (hest : ∃ e, estimatePosition M beacons current = some e)
    (hsmall : (calculateRssiChange current (some prev) : WithTop K) < ((5 : K) : WithTop K)) :
    insertData M beacons store deviceId (some deviceEuid) (some current) =
      { device_id := deviceId, pos_data := some prior, values := some current } :: store := by
  obtain ⟨e, he⟩ := hest
  have hfalse := hasSignificantChange_of_small_change M current (some e) prior (some prev) hsmall
  simp only [insertData, heuid, if_false, he, hlast, finalPosition, hfalse]
  simp

/-- The first report of a sequence stores a row with a position and its readings. -/
theorem insertData_of_estimate (M : JsMath K) (beacons : List (Beacon K))
    (store : List (Row K)) (deviceId deviceEuid : String) (current : List RawReading)
    (heuid : deviceEuid ≠ "") (hest : ∃ e, estimatePosition M beacons current = some e) :
    ∃ p, insertData M beacons store deviceId (some deviceEuid) (some current) =
      { device_id := deviceId, pos_data := some p, values := some current } :: store := by
  obtain ⟨e, he⟩ := hest
  simp only [insertData, heuid, if_false, he]
  exact ⟨_, rfl⟩

theorem runReports_holds_position (M : JsMath K) (beacons : List (Beacon K))
    (deviceId deviceEuid : String) (heuid : deviceEuid ≠ "") (rest : List (List RawReading)) :
    ∀ (store : List (Row K)) (prev : List RawReading) (p : PositionEstimate K),
      getLastDevicePosition store deviceId =
        some { position := some p, previousValues := some prev } →
      List.Chain
        (fun prev cur => (∃ e, estimatePosition M beacons cur = some e) ∧
          (calculateRssiChange cur (some prev) : WithTop K) < ((5 : K) : WithTop K))
        prev rest →
      ∀ k, ∃ cur, getLastDevicePosition
          (runReports M beacons deviceId deviceEuid store (rest.take k)) deviceId =
        some { position := some p, previousValues := some cur } := by
  induction rest with
  | nil =>
    intro store prev p hlast _ k
    exact ⟨prev, by simpa [runReports] using hlast⟩
  | cons c t ih =>
    intro store prev p hlast hchain k
    cases k with
    | zero => exact ⟨prev, by simpa [runReports] using hlast⟩
    | succ k =>
      obtain ⟨⟨hest, hsmall⟩, hrest⟩ := List.chain_cons.mp hchain
      have hins := insertData_of_small_change M beacons store deviceId deviceEuid c prev p
        heuid hlast hest hsmall
      have hlast2 := getLastDevicePosition_cons_self store deviceId (some p) (some c)
      rw [← hins] at hlast2
      obtain ⟨cur, hcur⟩ := ih _ c p hlast2 hrest k
      refine ⟨cur, ?_⟩
      simp only [runReports, List.take_succ_cons, List.foldl_cons] at hcur ⊢
      exact hcur

theorem driftReports_chain :
    List.Chain
      (fun prev cur => (∃ e, estimatePosition realMath demoBeacons cur = some e) ∧
        (calculateRssiChange cur (some prev) : WithTop ℝ) < ((5 : ℝ) : WithTop ℝ))
      driftFirst driftReports := by
  unfold driftReports driftFirst
  refine List.Chain.cons ⟨?_, ?_⟩ (List.Chain.cons ⟨?_, ?_⟩ (List.Chain.cons ⟨?_, ?_⟩
    List.Chain.nil))
  · exact estimatePosition_isSome_of_valid _ _ _ (by simp)
      (by simp [Resolves, demoBeacons, toUpperCase])
  · have h : (calculateRssiChange [ ({ mac := "c3:00:00:00:00:0a", rssi := -63 } : RawReading) ]
        (some [ { mac := "c3:00:00:00:00:0a", rssi := -59 } ]) : WithTop ℝ)
        = ((4 : ℝ) : WithTop ℝ) := by
      simp [calculateRssiChange, previousRssiMap, rssiChangeStep, mapSet]
    rw [h, WithTop.coe_lt_coe]
    norm_num
  · exact estimatePosition_isSome_of_valid _ _ _ (by simp)
      (by simp [Resolves, demoBeacons, toUpperCase])
  · have h : (calculateRssiChange [ ({ mac := "c3:00:00:00:00:0a", rssi := -67 } : RawReading) ]
        (some [ { mac := "c3:00:00:00:00:0a", rssi := -63 } ]) : WithTop ℝ)
        = ((4 : ℝ) : WithTop ℝ) := by
      simp [calculateRssiChange, previousRssiMap, rssiChangeStep, mapSet]
    rw [h, WithTop.coe_lt_coe]
    norm_num
  · exact estimatePosition_isSome_of_valid _ _ _ (by simp)
      (by simp [Resolves, demoBeacons, toUpperCase])
  · have h : (calculateRssiChange
        [ ({ mac := "c3:00:00:00:00:0a", rssi := -71 } : RawReading),
          { mac := "c3:00:00:00:00:0b", rssi := -59 },
          { mac := "c3:00:00:00:00:0c", rssi := -59 } ]
        (some [ { mac := "c3:00:00:00:00:0a", rssi := -67 } ]) : WithTop ℝ)
        = ((4 : ℝ) : WithTop ℝ) := by
      simp [calculateRssiChange, previousRssiMap, rssiChangeStep, mapSet, toUpperCase]
    rw [h, WithTop.coe_lt_coe]
    norm_num

theorem driftFirst_estimate : ∃ e, estimatePosition realMath demoBeacons driftFirst = some e :=
  estimatePosition_isSome_of_valid _ _ _ (by simp [driftFirst])
    (by simp [driftFirst, Resolves, demoBeacons, toUpperCase])

/-- Without rounding, `centroidPositionFl` is `centroidPosition`. -/
theorem centroidPositionFl_exactArith (readings : List (Reading K)) :
    centroidPositionFl exactArith readings = centroidPosition readings := by
  have hstep : centroidStepFl (exactArith : FlArith K) = centroidStep := by
    funext acc r
    simp [centroidStepFl, centroidStep, weightFl, exactArith]
  simp only [centroidPositionFl, centroidPosition, hstep]
  rfl

/-- Clamping a coordinate never increases a distance. -/
theorem abs_clamp_sub_clamp_le (bound a b : K) :
    |max 0 (min bound a) - max 0 (min bound b)| ≤ |a - b| := by
  have h1 : |max 0 (min bound a) - max 0 (min bound b)| ≤ |min bound a - min bound b| := by
    rw [max_comm 0, max_comm 0]
    exact abs_max_sub_max_le_abs _ _ _
  have h2 : |min bound a - min bound b| ≤ |a - b| := by
    have := abs_min_sub_min_le_max bound a bound b
    simpa using this
  exact le_trans h1 h2

/-- Two roundings of relative error at most `u` move a value `v` by at most
`|v| * (2 * u + u ^ 2)`. -/
theorem abs_two_roundings_le (u v δ₁ δ₂ : K) (h1 : |δ₁| ≤ u) (h2 : |δ₂| ≤ u) :
    |v * (1 + δ₁) * (1 + δ₂) - v| ≤ |v| * (2 * u + u ^ 2) := by
  have hu : 0 ≤ u := le_trans (abs_nonneg _) h1
  have heq : v * (1 + δ₁) * (1 + δ₂) - v = v * (δ₁ + δ₂ + δ₁ * δ₂) := by ring
  rw [heq, abs_mul]
  apply mul_le_mul_of_nonneg_left _ (abs_nonneg v)
  have h12 : |δ₁ * δ₂| ≤ u * u := by
    rw [abs_mul]
    exact mul_le_mul h1 h2 (abs_nonneg _) hu
  calc |δ₁ + δ₂ + δ₁ * δ₂| ≤ |δ₁ + δ₂| + |δ₁ * δ₂| := abs_add _ _
    _ ≤ |δ₁| + |δ₂| + |δ₁ * δ₂| := by linarith [abs_add δ₁ δ₂]
    _ ≤ 2 * u + u ^ 2 := by nlinarith

/-- The centroid of a single reading, the machine operations being left as they are. -/
theorem centroidPositionFl_singleton (F : FlArith K) (r : Reading K)
    (hzero : ∀ a, F.add 0 a = a) :
    centroidPositionFl F [r] = some (clampToFloor
      { x := F.div (F.mul (weightFl F r) r.x) (weightFl F r)
        y := F.div (F.mul (weightFl F r) r.y) (weightFl F r) }) := by
  simp only [centroidPositionFl, List.length_singleton, one_ne_zero, if_false, List.foldl_cons,
    List.foldl_nil, centroidStepFl, hzero]

/-- A rounded product divided by its factor `w` is the other factor, rounded twice. -/
theorem roundsAt_quotient (F : FlArith K) (w v : K) (hw : w ≠ 0) (h : F.RoundsAt w v) :
    ∃ δ₁ δ₂ : K, |δ₁| ≤ F.u ∧ |δ₂| ≤ F.u ∧
      F.div (F.mul w v) w = v * (1 + δ₁) * (1 + δ₂) := by
  obtain ⟨δ₁, δ₂, h1, h2, hmul, hdiv⟩ := h
  refine ⟨δ₁, δ₂, h1, h2, ?_⟩
  rw [hdiv, hmul]
  field_simp
  ring

theorem weightFl_coarseArith_readingSeven : weightFl coarseArith readingSeven ≠ 0 := by
  simp only [weightFl, coarseArith, readingSeven]
  norm_num

theorem coarseArith_roundsAt (w v : ℝ) : coarseArith.RoundsAt w v := by
  refine ⟨1 / 1000, 0, ?_, ?_, rfl, ?_⟩
  · show |(1 / 1000 : ℝ)| ≤ 1 / 1000
    rw [abs_of_pos (by norm_num)]
  · show |(0 : ℝ)| ≤ 1 / 1000
    rw [abs_zero]
    norm_num
  · show coarseArith.mul w v / w = coarseArith.mul w v / w * (1 + 0)
    rw [add_zero, mul_one]

theorem coarseArith_quotient (w v : ℝ) (hw : w ≠ 0) :
    coarseArith.div (coarseArith.mul w v) w = v * (1001 / 1000) := by
  show w * v * (1 + 1 / 1000) / w = v * (1001 / 1000)
  field_simp
  ring

theorem centroidPositionFl_coarseArith_readingSeven :
    centroidPositionFl coarseArith [readingSeven] = some { x := 7007 / 1000, y := 0 } := by
  rw [centroidPositionFl_singleton coarseArith readingSeven (fun a => zero_add a),
    coarseArith_quotient _ _ weightFl_coarseArith_readingSeven,
    coarseArith_quotient _ _ weightFl_coarseArith_readingSeven]
  have hx : readingSeven.x * (1001 / 1000) = 7007 / 1000 := by norm_num [readingSeven]
  have hy : readingSeven.y * (1001 / 1000) = 0 := by norm_num [readingSeven]
  rw [hx, hy]
  exact congrArg some
    (clampToFloor_of_inside _ (by norm_num) (by norm_num) (by norm_num) (by norm_num))

end Lemmas


/-! ## Claims -/

section Claims

variable {K : Type} [LinearOrderedField K]

/-- C1: whenever `estimatePosition` returns an estimate, whatever its method, the returned
coordinates satisfy `0 ≤ x ≤ 40` and `0 ≤ y ≤ 30`. -/
theorem estimatePosition_within_floor (M : JsMath K) (beacons : List (Beacon K))
    (posData : List RawReading) (e : PositionEstimate K)
    (h : estimatePosition M beacons posData = some e) :
    0 ≤ e.x ∧ e.x ≤ 40 ∧ 0 ≤ e.y ∧ e.y ≤ 30 := by
  unfold estimatePosition at h
  split at h
  · simp at h
  · simp only at h
    split at h
    · simp at h
    · split at h
      · simp at h
      · rename_i centroid hc
        obtain ⟨pc, rfl⟩ := centroidPosition_is_clamped _ _ hc
        split at h
        · rename_i trilat error ht
          obtain ⟨pt, rfl⟩ := trilatAttempt_is_clamped M _ _ _ ht
          split at h
          · cases h; exact clampToFloor_bounds pt
          · cases h; exact clampToFloor_bounds pc
        · cases h; exact clampToFloor_bounds pc

/-- Witness for C1: the batch A, B, C yields an estimate, and it lies on the floor. -/
theorem estimatePosition_within_floor_witness :
    estimatePosition realMath demoBeacons batchABC =
        some { x := 10 / 3, y := 10 / 3, method := Method.centroid_fallback,
               error := ((Real.sqrt 50 - 1 : ℝ) : WithTop ℝ) } ∧
      (0 ≤ (10 / 3 : ℝ) ∧ (10 / 3 : ℝ) ≤ 40 ∧ 0 ≤ (10 / 3 : ℝ) ∧ (10 / 3 : ℝ) ≤ 30) :=
  ⟨estimatePosition_batchABC,
    estimatePosition_within_floor realMath demoBeacons batchABC _ estimatePosition_batchABC⟩

/-- C2: `estimatePosition` returns `null` if and only if the batch is empty or the MAC of at
least one raw reading does not resolve, case-insensitively, to a registered beacon. -/
theorem estimatePosition_eq_none_iff (M : JsMath K) (beacons : List (Beacon K))
    (posData : List RawReading) :
    estimatePosition M beacons posData = none ↔
      posData = [] ∨ ∃ r ∈ posData, ¬ Resolves beacons r.mac := by
  constructor
  · intro h
    by_contra hcon
    push_neg at hcon
    obtain ⟨c, -, he⟩ := estimatePosition_of_valid M beacons posData hcon.1 hcon.2
    rw [he] at h
    split at h
    · simp at h
    · split at h <;> simp at h
  · rintro (rfl | ⟨r, hr, hres⟩)
    · simp [estimatePosition, validateAllBeaconsExist, buildReadings]
    · have hval : ¬ validateAllBeaconsExist beacons posData = true := by
        rw [validateAllBeaconsExist_iff]
        push_neg
        exact ⟨r, hr, hres⟩
      simp [estimatePosition, hval]

/-- C3: on a non-empty batch whose MACs all resolve, the method is `trilateration` if and only
if `trilaterateRaw` on the chosen input set yields a solution whose clamped position has mean
error at most 5; then the returned position is that clamped solution, and with any other
method the returned position is `centroidPosition` of all readings. -/
theorem estimatePosition_trilateration_iff (M : JsMath K) (beacons : List (Beacon K))
    (posData : List RawReading) (hne : posData ≠ [])
    (hv : ∀ r ∈ posData, Resolves beacons r.mac) :
    ∃ e c, estimatePosition M beacons posData = some e ∧
      centroidPosition (buildReadings M beacons posData) = some c ∧
      (e.method = Method.trilateration ↔
        ∃ raw, trilaterateRaw (trilatReadings (buildReadings M beacons posData)) = some raw ∧
          trilatError M (some (clampToFloor { x := raw.x, y := raw.y }))
            (trilatReadings (buildReadings M beacons posData)) ≤ ((5 : K) : WithTop K)) ∧
      (e.method = Method.trilateration →
        ∃ raw, trilaterateRaw (trilatReadings (buildReadings M beacons posData)) = some raw ∧
          e.pos = clampToFloor { x := raw.x, y := raw.y }) ∧
      (e.method ≠ Method.trilateration → e.pos = c) := by
  obtain ⟨c, hc, he⟩ := estimatePosition_of_valid M beacons posData hne hv
  rw [he]
  cases hraw : trilaterateRaw (trilatReadings (buildReadings M beacons posData)) with
  | none => exact ⟨_, c, rfl, hc, by simp, by simp, fun _ => rfl⟩
  | some raw =>
    simp only [MAX_MEAN_ERROR]
    by_cases herr : trilatError M (some (clampToFloor { x := raw.x, y := raw.y }))
        (trilatReadings (buildReadings M beacons posData)) ≤ ((5 : K) : WithTop K)
    · rw [if_pos herr]
      refine ⟨_, c, rfl, hc, ?_, ?_, ?_⟩
      · simp only [true_iff]
        exact ⟨raw, rfl, herr⟩
      · intro _
        exact ⟨raw, rfl, rfl⟩
      · intro h
        exact absurd rfl h
    · rw [if_neg herr]
      refine ⟨_, c, rfl, hc, ?_, ?_, ?_⟩
      · constructor
        · intro h
          cases h
        · rintro ⟨raw2, h2, h3⟩
          cases h2
          exact absurd h3 herr
      · intro h
        cases h
      · intro _
        rfl

/-- Witness for C3: the batch A, B, C is non-empty and all its MACs resolve. -/
theorem estimatePosition_trilateration_iff_witness :
    (batchABC ≠ [] ∧ ∀ r ∈ batchABC, Resolves demoBeacons r.mac) ∧
    ∃ e c, estimatePosition realMath demoBeacons batchABC = some e ∧
      centroidPosition (buildReadings realMath demoBeacons batchABC) = some c ∧
      (e.method = Method.trilateration ↔
        ∃ raw, trilaterateRaw (trilatReadings (buildReadings realMath demoBeacons batchABC))
            = some raw ∧
          trilatError realMath (some (clampToFloor { x := raw.x, y := raw.y }))
            (trilatReadings (buildReadings realMath demoBeacons batchABC))
              ≤ ((5 : ℝ) : WithTop ℝ)) ∧
      (e.method = Method.trilateration →
        ∃ raw, trilaterateRaw (trilatReadings (buildReadings realMath demoBeacons batchABC))
            = some raw ∧
          e.pos = clampToFloor { x := raw.x, y := raw.y }) ∧
      (e.method ≠ Method.trilateration → e.pos = c) :=
  ⟨⟨by simp [batchABC], resolves_batchABC⟩,
    estimatePosition_trilateration_iff realMath demoBeacons batchABC (by simp [batchABC])
      resolves_batchABC⟩

/-- C4, refuted as stated: the batch A, B, D has three readings, all resolving, a trilateration
attempt is made on it, and yet the estimate is tagged `centroid_only`. -/
theorem centroid_only_with_three_readings :
    batchABD.length = 3 ∧ (∀ r ∈ batchABD, Resolves demoBeacons r.mac) ∧
      3 ≤ (trilatReadings (buildReadings realMath demoBeacons batchABD)).length ∧
      estimatePosition realMath demoBeacons batchABD =
        some { x := 10, y := 0, method := Method.centroid_only, error := ⊤ } := by
  refine ⟨rfl, resolves_batchABD, ?_, estimatePosition_batchABD⟩
  rw [buildReadings_batchABD, trilatReadings_readingsABD]
  simp [readingsABD]

/-- C4, amended: when `estimatePosition` returns the centroid for a non-empty batch whose MACs
all resolve, the tag is `centroid_only` exactly when `trilaterateRaw` produced no solution,
that is when the batch has fewer than 3 readings or the determinant of the normal equations is
below 1e-6 in absolute value, and it is `centroid_fallback` exactly when a solution was
produced (3 or more readings and a determinant of at least 1e-6 in absolute value). -/
theorem estimatePosition_centroid_tag (M : JsMath K) (beacons : List (Beacon K))
    (posData : List RawReading) (e : PositionEstimate K) (hne : posData ≠ [])
    (hv : ∀ r ∈ posData, Resolves beacons r.mac)
    (he : estimatePosition M beacons posData = some e)
    (hm : e.method ≠ Method.trilateration) :
    (e.method = Method.centroid_only ↔
      trilaterateRaw (trilatReadings (buildReadings M beacons posData)) = none) ∧
    (e.method = Method.centroid_only ↔
      posData.length < 3 ∨
        |trilatDet (trilatReadings (buildReadings M beacons posData))| < 1 / 1000000) ∧
    (e.method = Method.centroid_fallback ↔
      3 ≤ posData.length ∧
        1 / 1000000 ≤ |trilatDet (trilatReadings (buildReadings M beacons posData))|) := by
  have hlen := buildReadings_length M beacons posData ((validateAllBeaconsExist_iff _ _).mpr hv)
  have hnone := trilaterateRaw_eq_none_iff (trilatReadings (buildReadings M beacons posData))
  rw [trilatReadings_length_lt_three_iff, hlen] at hnone
  obtain ⟨c, hc, he2⟩ := estimatePosition_of_valid M beacons posData hne hv
  rw [he2] at he
  have key : e.method = Method.centroid_only ↔
      trilaterateRaw (trilatReadings (buildReadings M beacons posData)) = none := by
    cases hraw : trilaterateRaw (trilatReadings (buildReadings M beacons posData)) with
    | none =>
      rw [hraw] at he
      cases he
      simp
    | some raw =>
      rw [hraw] at he
      simp only at he
      split at he
      · cases he
        exact absurd rfl hm
      · cases he
        simp
  refine ⟨key, key.trans hnone, ?_⟩
  have hcases : e.method = Method.centroid_only ∨ e.method = Method.centroid_fallback := by
    cases hmeth : e.method with
    | trilateration => exact absurd hmeth hm
    | centroid_fallback => exact Or.inr rfl
    | centroid_only => exact Or.inl rfl
  have hiff := key.trans hnone
  constructor
  · intro hfb
    have hno : ¬ e.method = Method.centroid_only := by
      rw [hfb]
      decide
    rw [hiff] at hno
    push_neg at hno
    exact ⟨hno.1, hno.2⟩
  · rintro ⟨h3, hdet⟩
    rcases hcases with h | h
    · rw [hiff] at h
      rcases h with h | h
      · omega
      · exact absurd h (not_lt.mpr hdet)
    · exact h

/-- Witness for C4 (amended): the batch A, B, C returns the centroid. -/
theorem estimatePosition_centroid_tag_witness :
    (batchABC ≠ [] ∧ (∀ r ∈ batchABC, Resolves demoBeacons r.mac) ∧
      estimatePosition realMath demoBeacons batchABC =
        some { x := 10 / 3, y := 10 / 3, method := Method.centroid_fallback,
               error := ((Real.sqrt 50 - 1 : ℝ) : WithTop ℝ) }) ∧
    ((Method.centroid_fallback = Method.centroid_only ↔
      trilaterateRaw (trilatReadings (buildReadings realMath demoBeacons batchABC)) = none) ∧
    (Method.centroid_fallback = Method.centroid_only ↔
      batchABC.length < 3 ∨
        |trilatDet (trilatReadings (buildReadings realMath demoBeacons batchABC))|
          < 1 / 1000000) ∧
    (Method.centroid_fallback = Method.centroid_fallback ↔
      3 ≤ batchABC.length ∧
        1 / 1000000
          ≤ |trilatDet (trilatReadings (buildReadings realMath demoBeacons batchABC))|)) :=
  ⟨⟨by simp [batchABC], resolves_batchABC, estimatePosition_batchABC⟩,
    estimatePosition_centroid_tag realMath demoBeacons batchABC _ (by simp [batchABC])
      resolves_batchABC estimatePosition_batchABC (by simp)⟩

/-- C5: `hasSignificantChange` returns true if and only if there is no prior fix (`lastData`
or its position absent), or the mean RSSI change is at least 5 and the position change at least
1.5, or the mean RSSI change is at least 10; the mean RSSI change is the mean of
`|currentRssi - previousRssi|` over the current readings whose MAC occurs, case-insensitively,
in the prior readings (infinite if none) and the position change is the Euclidean distance.
When the new position equals the prior one, so that the position change is 0, the result is
true exactly when the mean RSSI change is at least 10. -/
theorem hasSignificantChange_iff (current : List RawReading)
    (newPosition : Option (PositionEstimate ℝ)) (lastData : Option (LastData ℝ))
    (prior : PositionEstimate ℝ) (prev : Option (List RawReading)) :
    (hasSignificantChange realMath current newPosition lastData = true ↔
      ((lastData = none ∨ ∃ ld, lastData = some ld ∧ ld.position = none) ∨
        ∃ ld p, lastData = some ld ∧ ld.position = some p ∧
          ((((5 : ℝ) : WithTop ℝ) ≤ specMeanRssiChange current ld.previousValues ∧
              ((3 / 2 : ℝ) : WithTop ℝ) ≤ specPositionChange newPosition p) ∨
            ((10 : ℝ) : WithTop ℝ) ≤ specMeanRssiChange current ld.previousValues))) ∧
    specPositionChange (some prior) prior = ((0 : ℝ) : WithTop ℝ) ∧
    (hasSignificantChange realMath current (some prior)
        (some { position := some prior, previousValues := prev }) = true ↔
      ((10 : ℝ) : WithTop ℝ) ≤ specMeanRssiChange current prev) := by
  have hzero : specPositionChange (some prior) prior = ((0 : ℝ) : WithTop ℝ) := by
    simp [specPositionChange]
  refine ⟨?_, hzero, ?_⟩
  · cases lastData with
    | none => simp [hasSignificantChange]
    | some ld =>
      obtain ⟨pos, pv⟩ := ld
      cases pos with
      | none => simp [hasSignificantChange]
      | some p =>
        rw [hasSignificantChange_with_prior]
        simp
  · rw [hasSignificantChange_with_prior, hzero]
    constructor
    · rintro (⟨-, h⟩ | h)
      · rw [WithTop.coe_le_coe] at h
        norm_num at h
      · exact h
    · intro h
      exact Or.inr h

/-- C6, refuted as stated: the stored readings and the current batch are both `batchAA`, which
reports beacon A at -59 and at -87 dBm; the mean RSSI change computed is 14, so
`hasSignificantChange` is true and `insertData` stores the new estimate (0, 0) instead of the
prior position (20, 15). -/
theorem identical_batch_replaces_position :
    getLastDevicePosition storeAA "dev-1" =
        some { position := some priorFix, previousValues := some batchAA } ∧
      hasSignificantChange realMath batchAA (some estimateAA)
        (some { position := some priorFix, previousValues := some batchAA }) = true ∧
      insertData realMath demoBeacons storeAA "dev-1" (some "70B3D57ED005A1B2") (some batchAA) =
        { device_id := "dev-1", pos_data := some estimateAA, values := some batchAA }
          :: storeAA ∧
      estimateAA.x ≠ priorFix.x := by
  have hlast : getLastDevicePosition storeAA "dev-1" =
      some { position := some priorFix, previousValues := some batchAA } := by
    simp [getLastDevicePosition, storeAA]
  refine ⟨hlast, hasSignificantChange_batchAA, ?_, ?_⟩
  · have heuid : ¬ ("70B3D57ED005A1B2" : String) = "" := by decide
    simp only [insertData, heuid, if_false, estimatePosition_batchAA, hlast, finalPosition,
      hasSignificantChange_batchAA, if_true]
  · simp [estimateAA, priorFix]

/-- C6, amended: for every prior fix with a position and every current batch equal to the
stored raw readings that is not empty and reports no MAC, compared case-insensitively, with
two different RSSI values, `hasSignificantChange` is false for every new estimate and the row
`insertData` stores carries exactly the prior position. -/
theorem identical_batch_keeps_position (M : JsMath K) (beacons : List (Beacon K))
    (store : List (Row K)) (deviceId deviceEuid : String) (current : List RawReading)
    (prior : PositionEstimate K) (hne : current ≠ [])
    (hcons : ∀ a ∈ current, ∀ b ∈ current,
      toUpperCase a.mac = toUpperCase b.mac → a.rssi = b.rssi)
    (heuid : deviceEuid ≠ "")
    (hlast : getLastDevicePosition store deviceId =
      some { position := some prior, previousValues := some current }) :
    (∀ newPosition : Option (PositionEstimate K),
      hasSignificantChange M current newPosition
        (some { position := some prior, previousValues := some current }) = false) ∧
    (∀ estimate : PositionEstimate K,
      finalPosition M current estimate
        (some { position := some prior, previousValues := some current }) = prior) ∧
    (∀ estimate : PositionEstimate K, estimatePosition M beacons current = some estimate →
      insertData M beacons store deviceId (some deviceEuid) (some current) =
        { device_id := deviceId, pos_data := some prior, values := some current } :: store) := by
  have hfalse := hasSignificantChange_self M current hne hcons
  have hfinal : ∀ estimate : PositionEstimate K,
      finalPosition M current estimate
        (some { position := some prior, previousValues := some current }) = prior := by
    intro estimate
    simp [finalPosition, hfalse]
  refine ⟨fun newPosition => hfalse newPosition prior, hfinal, ?_⟩
  intro estimate hest
  simp only [insertData, heuid, if_false, hest, hlast, hfinal]

/-- Witness for C6 (amended): the batch A, B, C against a table that stores the same batch. -/
theorem identical_batch_keeps_position_witness :
    (batchABC ≠ [] ∧
      (∀ a ∈ batchABC, ∀ b ∈ batchABC,
        toUpperCase a.mac = toUpperCase b.mac → a.rssi = b.rssi) ∧
      ("70B3D57ED005A1B2" : String) ≠ "" ∧
      getLastDevicePosition storeABC "dev-1" =
        some { position := some priorFix, previousValues := some batchABC }) ∧
    ((∀ newPosition : Option (PositionEstimate ℝ),
      hasSignificantChange realMath batchABC newPosition
        (some { position := some priorFix, previousValues := some batchABC }) = false) ∧
    (∀ estimate : PositionEstimate ℝ,
      finalPosition realMath batchABC estimate
        (some { position := some priorFix, previousValues := some batchABC }) = priorFix) ∧
    (∀ estimate : PositionEstimate ℝ,
      estimatePosition realMath demoBeacons batchABC = some estimate →
      insertData realMath demoBeacons storeABC "dev-1" (some "70B3D57ED005A1B2")
          (some batchABC) =
        { device_id := "dev-1", pos_data := some priorFix, values := some batchABC }
          :: storeABC)) :=
  have h1 : batchABC ≠ [] := by simp [batchABC]
  have h2 : ∀ a ∈ batchABC, ∀ b ∈ batchABC,
      toUpperCase a.mac = toUpperCase b.mac → a.rssi = b.rssi := by
    simp [batchABC]
  have h3 : ("70B3D57ED005A1B2" : String) ≠ "" := by decide
  have h4 : getLastDevicePosition storeABC "dev-1" =
      some { position := some priorFix, previousValues := some batchABC } := by
    simp [getLastDevicePosition, storeABC]
  ⟨⟨h1, h2, h3, h4⟩,
    identical_batch_keeps_position realMath demoBeacons storeABC "dev-1" "70B3D57ED005A1B2"
      batchABC priorFix h1 h2 h3 h4⟩

/-- C7: when the current batch and the stored readings of a prior fix with a position share no
beacon MAC, compared case-insensitively, `calculateRssiChange` is `+Infinity` and
`hasSignificantChange` is true, whatever the new and the prior positions are. -/
theorem disjoint_macs_force_acceptance (M : JsMath K) (current previous : List RawReading)
    (newPosition : Option (PositionEstimate K)) (prior : PositionEstimate K)
    (hdis : ∀ c ∈ current, ∀ p ∈ previous, toUpperCase c.mac ≠ toUpperCase p.mac) :
    (calculateRssiChange current (some previous) : WithTop K) = ⊤ ∧
      hasSignificantChange M current newPosition
        (some { position := some prior, previousValues := some previous }) = true := by
  have htop := calculateRssiChange_of_disjoint (K := K) current previous hdis
  refine ⟨htop, ?_⟩
  simp [hasSignificantChange, htop]

/-- Witness for C7: the batch A, B, C against stored readings of beacon D alone. -/
theorem disjoint_macs_force_acceptance_witness :
    (∀ c ∈ batchABC, ∀ p ∈ batchD, toUpperCase c.mac ≠ toUpperCase p.mac) ∧
    ((calculateRssiChange batchABC (some batchD) : WithTop ℝ) = ⊤ ∧
      hasSignificantChange realMath batchABC (some priorFix)
        (some { position := some priorFix, previousValues := some batchD }) = true) :=
  have h : ∀ c ∈ batchABC, ∀ p ∈ batchD, toUpperCase c.mac ≠ toUpperCase p.mac := by
    simp [batchABC, batchD, toUpperCase]
  ⟨h, disjoint_macs_force_acceptance realMath batchABC batchD (some priorFix) priorFix h⟩

/-- C8: for every list of at least 3 readings whose trilateration subset (the at most 5
nearest) has collinear beacon coordinates, all on one point included, the determinant
`A11 * A22 - A12 ^ 2` is below 1e-6 in absolute value (it is 0) and `trilaterateRaw` returns no
solution; and `estimatePosition` on a batch whose chosen input set is such a list returns the
centroid position. -/
theorem collinear_falls_back_to_centroid (M : JsMath K) (beacons : List (Beacon K)) :
    (∀ readings : List (Reading K), 3 ≤ readings.length → Collinear (usedReadings readings) →
      trilatDet readings = 0 ∧ |trilatDet readings| < 1 / 1000000 ∧
        trilaterateRaw readings = none) ∧
    (∀ posData : List RawReading, (∀ r ∈ posData, Resolves beacons r.mac) →
      3 ≤ (trilatReadings (buildReadings M beacons posData)).length →
      Collinear (usedReadings (trilatReadings (buildReadings M beacons posData))) →
      ∃ e c, estimatePosition M beacons posData = some e ∧
        centroidPosition (buildReadings M beacons posData) = some c ∧
        e.pos = c ∧ e.method = Method.centroid_only) := by
  constructor
  · intro readings _ hcol
    have h0 := trilatDet_eq_zero_of_collinear readings hcol
    refine ⟨h0, ?_, trilaterateRaw_eq_none_of_collinear readings hcol⟩
    rw [h0]
    norm_num
  · intro posData hv h3 hcol
    have hne : posData ≠ [] := by
      rintro rfl
      simp [buildReadings, trilatReadings, strongReadings] at h3
    obtain ⟨c, hc, he⟩ := estimatePosition_of_valid M beacons posData hne hv
    rw [trilaterateRaw_eq_none_of_collinear _ hcol] at he
    exact ⟨_, c, he, hc, rfl, rfl⟩

/-- Witness for C8: the readings of A, B and D lie on the line `y = 0`. -/
theorem collinear_falls_back_to_centroid_witness :
    (3 ≤ readingsABD.length ∧ Collinear (usedReadings readingsABD) ∧
      (∀ r ∈ batchABD, Resolves demoBeacons r.mac) ∧
      trilatReadings (buildReadings realMath demoBeacons batchABD) = readingsABD) ∧
    (trilatDet readingsABD = 0 ∧ |trilatDet readingsABD| < 1 / 1000000 ∧
      trilaterateRaw readingsABD = none) ∧
    (∃ e c, estimatePosition realMath demoBeacons batchABD = some e ∧
      centroidPosition (buildReadings realMath demoBeacons batchABD) = some c ∧
      e.pos = c ∧ e.method = Method.centroid_only) :=
  have h3 : 3 ≤ readingsABD.length := by simp [readingsABD]
  have hcol : Collinear (usedReadings readingsABD) := by
    rw [usedReadings_readingsABD]
    exact ⟨0, 1, 0, Or.inr one_ne_zero, by simp [readingsABD]⟩
  have hT : trilatReadings (buildReadings realMath demoBeacons batchABD) = readingsABD := by
    rw [buildReadings_batchABD, trilatReadings_readingsABD]
  ⟨⟨h3, hcol, resolves_batchABD, hT⟩,
    (collinear_falls_back_to_centroid realMath demoBeacons).1 readingsABD h3 hcol,
    (collinear_falls_back_to_centroid realMath demoBeacons).2 batchABD resolves_batchABD
      (by rw [hT]; exact h3) (by rw [hT]; exact hcol)⟩

/-- C9, refuted as stated: for the batch at A(0,0), B(10,0), C(0,10) with -59 dBm each, every
distance is exactly 1, and the estimate is not tagged `trilateration`, is not within 1 m of
(0, 0), and carries an error above 5. -/
theorem example_batch_is_not_trilateration :
    buildReadings realMath beaconsABC batchABC = readingsABC ∧
      ∃ e, estimatePosition realMath beaconsABC batchABC = some e ∧
        e.method ≠ Method.trilateration ∧ 1 < e.x ∧ 1 < e.y ∧
        ¬ e.error ≤ ((5 : ℝ) : WithTop ℝ) := by
  refine ⟨buildReadings_beaconsABC, _, estimatePosition_beaconsABC, by simp, ?_, ?_, ?_⟩
  · norm_num
  · norm_num
  · have h6 := six_lt_sqrt_fifty
    simp only [WithTop.coe_le_coe]
    linarith

/-- C9, amended: for the batch at A(0,0), B(10,0), C(0,10) with -59 dBm each, every distance
is exactly 1, `trilaterateRaw` solves to (5, 5), the mean error of that solution is
`sqrt 50 - 1`, which exceeds 5, and `estimatePosition` returns the centroid (10/3, 10/3) tagged
`centroid_fallback` with that error. -/
theorem example_batch_is_centroid_fallback :
    buildReadings realMath beaconsABC batchABC = readingsABC ∧
      trilaterateRaw readingsABC = some { x := 5, y := 5, used := readingsABC } ∧
      trilatError realMath (some (clampToFloor { x := 5, y := 5 })) readingsABC
        = ((Real.sqrt 50 - 1 : ℝ) : WithTop ℝ) ∧
      5 < Real.sqrt 50 - 1 ∧
      estimatePosition realMath beaconsABC batchABC =
        some { x := 10 / 3, y := 10 / 3, method := Method.centroid_fallback,
               error := ((Real.sqrt 50 - 1 : ℝ) : WithTop ℝ) } := by
  refine ⟨buildReadings_beaconsABC, trilaterateRaw_readingsABC, ?_, ?_,
    estimatePosition_beaconsABC⟩
  · rw [clampToFloor_five_five]
    exact trilatError_readingsABC
  · have h6 := six_lt_sqrt_fifty
    linarith

/-- C10, refuted as stated: a single reading of a beacon at (50, 0) has centroid (40, 0). -/
theorem centroid_of_off_floor_reading :
    centroidPosition [readingOffFloor] = some { x := 40, y := 0 } ∧
      centroidPosition [readingOffFloor] ≠
        some { x := readingOffFloor.x, y := readingOffFloor.y } := by
  have h : centroidPosition [readingOffFloor] = some { x := 40, y := 0 } := by
    rw [centroidPosition_singleton]
    simp [clampToFloor, readingOffFloor, REAL_WIDTH, REAL_HEIGHT]
    norm_num
  refine ⟨h, ?_⟩
  rw [h]
  simp [readingOffFloor]

/-- C10, amended: for every single reading `r`, whatever its distance, `centroidPosition [r]`
is `clampToFloor` of `((w * r.x) / w, (w * r.y) / w)` with `w` the weight of `r`.  When the
product and the quotient are each computed with a relative error of at most `u`, every
returned coordinate differs from that of `clampToFloor (r.x, r.y)` by at most
`|r.x| * (2 * u + u ^ 2)`, respectively `|r.y| * (2 * u + u ^ 2)`; without rounding (`u = 0`)
the result is exactly `clampToFloor (r.x, r.y)`, which is `(r.x, r.y)` for a beacon on the
floor. -/
theorem centroid_of_single_reading_up_to_rounding (F : FlArith K) (r : Reading K)
    (hzero : ∀ a, F.add 0 a = a) (hw : weightFl F r ≠ 0)
    (hx : F.RoundsAt (weightFl F r) r.x) (hy : F.RoundsAt (weightFl F r) r.y) :
    ∃ p, centroidPositionFl F [r] = some p ∧
      |p.x - (clampToFloor { x := r.x, y := r.y }).x| ≤ |r.x| * (2 * F.u + F.u ^ 2) ∧
      |p.y - (clampToFloor { x := r.x, y := r.y }).y| ≤ |r.y| * (2 * F.u + F.u ^ 2) ∧
      (F.u = 0 → p = clampToFloor { x := r.x, y := r.y }) ∧
      (F.u = 0 → 0 ≤ r.x → r.x ≤ 40 → 0 ≤ r.y → r.y ≤ 30 → p = { x := r.x, y := r.y }) := by
  obtain ⟨δ₁, δ₂, h1, h2, hqx⟩ := roundsAt_quotient F _ r.x hw hx
  obtain ⟨ε₁, ε₂, h3, h4, hqy⟩ := roundsAt_quotient F _ r.y hw hy
  have hbx := abs_two_roundings_le F.u r.x δ₁ δ₂ h1 h2
  have hby := abs_two_roundings_le F.u r.y ε₁ ε₂ h3 h4
  have hexact : F.u = 0 →
      clampToFloor { x := r.x * (1 + δ₁) * (1 + δ₂), y := r.y * (1 + ε₁) * (1 + ε₂) }
        = clampToFloor { x := r.x, y := r.y } := by
    intro hu
    rw [hu] at h1 h2 h3 h4
    have e1 : δ₁ = 0 := abs_nonpos_iff.mp h1
    have e2 : δ₂ = 0 := abs_nonpos_iff.mp h2
    have e3 : ε₁ = 0 := abs_nonpos_iff.mp h3
    have e4 : ε₂ = 0 := abs_nonpos_iff.mp h4
    simp [e1, e2, e3, e4]
  refine ⟨_, by rw [centroidPositionFl_singleton F r hzero, hqx, hqy], ?_, ?_, hexact, ?_⟩
  · exact le_trans (abs_clamp_sub_clamp_le _ _ _) hbx
  · exact le_trans (abs_clamp_sub_clamp_le _ _ _) hby
  · intro hu hx0 hx1 hy0 hy1
    rw [hexact hu]
    exact clampToFloor_of_inside _ hx0 hx1 hy0 hy1

/-- Witness for C10 (amended): with products that come out too large by one part in a
thousand, the reading at (7, 0) has centroid (7.007, 0), within `7 * (2 * u + u ^ 2)` of
(7, 0). -/
theorem centroid_of_single_reading_up_to_rounding_witness :
    ((∀ a, coarseArith.add 0 a = a) ∧ weightFl coarseArith readingSeven ≠ 0 ∧
      coarseArith.RoundsAt (weightFl coarseArith readingSeven) readingSeven.x ∧
      coarseArith.RoundsAt (weightFl coarseArith readingSeven) readingSeven.y) ∧
    centroidPositionFl coarseArith [readingSeven] = some { x := 7007 / 1000, y := 0 } ∧
    ∃ p, centroidPositionFl coarseArith [readingSeven] = some p ∧
      |p.x - (clampToFloor { x := readingSeven.x, y := readingSeven.y }).x|
        ≤ |readingSeven.x| * (2 * coarseArith.u + coarseArith.u ^ 2) ∧
      |p.y - (clampToFloor { x := readingSeven.x, y := readingSeven.y }).y|
        ≤ |readingSeven.y| * (2 * coarseArith.u + coarseArith.u ^ 2) ∧
      (coarseArith.u = 0 → p = clampToFloor { x := readingSeven.x, y := readingSeven.y }) ∧
      (coarseArith.u = 0 → 0 ≤ readingSeven.x → readingSeven.x ≤ 40 → 0 ≤ readingSeven.y →
        readingSeven.y ≤ 30 → p = { x := readingSeven.x, y := readingSeven.y }) :=
  have hzero : ∀ a, coarseArith.add 0 a = a := fun a => zero_add a
  ⟨⟨hzero, weightFl_coarseArith_readingSeven, coarseArith_roundsAt _ _,
      coarseArith_roundsAt _ _⟩,
    centroidPositionFl_coarseArith_readingSeven,
    centroid_of_single_reading_up_to_rounding coarseArith readingSeven hzero
      weightFl_coarseArith_readingSeven (coarseArith_roundsAt _ _) (coarseArith_roundsAt _ _)⟩

/-- C11: for every batch whose MACs all resolve, `buildReadings` emits exactly one reading per
raw reading, in the same order, carrying the coordinates of the beacon found for its MAC and
the parsed RSSI, with `d = min (10 ^ ((-59 - rssi) / 28)) 40`; hence `0 < d ≤ 40` for every
emitted reading. -/
theorem buildReadings_spec (beacons : List (Beacon ℝ)) (posData : List RawReading)
    (hv : ∀ r ∈ posData, Resolves beacons r.mac) :
    List.Forall₂
      (fun raw rd => ∃ b, getBeaconByMac beacons raw.mac = some b ∧
        rd = { x := b.x, y := b.y, rssi := raw.rssi,
               d := min ((10 : ℝ) ^ ((-59 - (raw.rssi : ℝ)) / 28)) 40 })
      posData (buildReadings realMath beacons posData) ∧
    (buildReadings realMath beacons posData).length = posData.length ∧
    ∀ rd ∈ buildReadings realMath beacons posData, 0 < rd.d ∧ rd.d ≤ 40 := by
  have h28 : (10 : ℝ) * (28 / 10) = 28 := by norm_num
  have hall := buildReadings_forall₂ realMath beacons posData hv
  simp only [h28, realMath] at hall
  refine ⟨hall, hall.length_eq.symm, ?_⟩
  intro rd hrd
  obtain ⟨raw, -, b, -, rfl⟩ := mem_buildReadings realMath beacons posData rd hrd
  constructor
  · exact lt_min (realMath_exact.pow_pos 10 _ (by norm_num)) (by norm_num)
  · exact min_le_right _ _

/-- Witness for C11: the MACs of the batch A, B, C all resolve. -/
theorem buildReadings_spec_witness :
    (∀ r ∈ batchABC, Resolves beaconsABC r.mac) ∧
    (List.Forall₂
      (fun raw rd => ∃ b, getBeaconByMac beaconsABC raw.mac = some b ∧
        rd = { x := b.x, y := b.y, rssi := raw.rssi,
               d := min ((10 : ℝ) ^ ((-59 - (raw.rssi : ℝ)) / 28)) 40 })
      batchABC (buildReadings realMath beaconsABC batchABC) ∧
    (buildReadings realMath beaconsABC batchABC).length = batchABC.length ∧
    ∀ rd ∈ buildReadings realMath beaconsABC batchABC, 0 < rd.d ∧ rd.d ≤ 40) :=
  ⟨resolves_beaconsABC, buildReadings_spec beaconsABC batchABC resolves_beaconsABC⟩

/-- C12, refuted as stated: on a batch of six readings `trilaterateRaw` keeps the five nearest
as `used` and solves to (20, 15); the mean of `|distance - d|` over those five used readings
is 4, but the error `estimatePosition` returns is 10/3, the mean over all six readings of the
input set. -/
theorem error_is_not_mean_over_used :
    trilaterateRaw (trilatReadings (buildReadings realMath beaconsRing batchRing)) =
        some { x := 20, y := 15, used := usedRing } ∧
      usedRing.length = 5 ∧
      estimatePosition realMath beaconsRing batchRing =
        some { x := 20, y := 15, method := Method.trilateration,
               error := ((10 / 3 : ℝ) : WithTop ℝ) } ∧
      trilatError realMath (some (clampToFloor { x := 20, y := 15 })) usedRing
        = ((4 : ℝ) : WithTop ℝ) ∧
      specMeanError (clampToFloor { x := 20, y := 15 }) usedRing = 4 ∧
      ((10 / 3 : ℝ) : WithTop ℝ) ≠ ((4 : ℝ) : WithTop ℝ) := by
  refine ⟨?_, rfl, estimatePosition_batchRing, ?_, ?_, ?_⟩
  · rw [buildReadings_batchRing, trilatReadings_readingsRing, trilaterateRaw_readingsRing]
  · rw [clampToFloor_twenty_fifteen, trilatError_eq_spec _ _ (by simp [usedRing]),
      specMeanError_usedRing]
  · rw [clampToFloor_twenty_fifteen, specMeanError_usedRing]
  · rw [Ne, WithTop.coe_eq_coe]
    norm_num

/-- C12, amended: whenever `estimatePosition` computes a trilateration error, that error is the
mean of `|euclideanDistance(pos, r) - r.d|` over the whole trilateration input set
`trilatReadings`, `pos` being the clamped solution; it is the mean over the readings
`trilaterateRaw` kept as `used` when the input set has at most 5 readings. -/
theorem error_is_mean_over_input_set (beacons : List (Beacon ℝ)) (posData : List RawReading)
    (e : PositionEstimate ℝ) (raw : TrilatResult ℝ)
    (he : estimatePosition realMath beacons posData = some e)
    (hraw : trilaterateRaw (trilatReadings (buildReadings realMath beacons posData))
      = some raw) :
    e.error = ((specMeanError (clampToFloor { x := raw.x, y := raw.y })
        (trilatReadings (buildReadings realMath beacons posData)) : ℝ) : WithTop ℝ) ∧
    ((trilatReadings (buildReadings realMath beacons posData)).length ≤ 5 →
      e.error = ((specMeanError (clampToFloor { x := raw.x, y := raw.y }) raw.used : ℝ)
        : WithTop ℝ)) := by
  have herr := estimatePosition_error realMath beacons posData e raw he hraw
  obtain ⟨_, _, -, -, h3, -⟩ := trilaterateRaw_eq_some _ raw hraw
  have hne : trilatReadings (buildReadings realMath beacons posData) ≠ [] := by
    intro h
    rw [h] at h3
    simp at h3
  rw [trilatError_eq_spec _ _ hne] at herr
  refine ⟨herr, ?_⟩
  intro h5
  rw [herr, trilaterateRaw_used _ raw hraw,
    specMeanError_perm _ _ _ (usedReadings_perm_of_le_five _ h5)]

/-- Witness for C12 (amended): the batch A, B, C, whose solution is (5, 5). -/
theorem error_is_mean_over_input_set_witness :
    (estimatePosition realMath demoBeacons batchABC =
        some { x := 10 / 3, y := 10 / 3, method := Method.centroid_fallback,
               error := ((Real.sqrt 50 - 1 : ℝ) : WithTop ℝ) } ∧
      trilaterateRaw (trilatReadings (buildReadings realMath demoBeacons batchABC))
        = some { x := 5, y := 5, used := readingsABC }) ∧
    (((Real.sqrt 50 - 1 : ℝ) : WithTop ℝ) =
      ((specMeanError (clampToFloor { x := 5, y := 5 })
        (trilatReadings (buildReadings realMath demoBeacons batchABC)) : ℝ) : WithTop ℝ) ∧
    ((trilatReadings (buildReadings realMath demoBeacons batchABC)).length ≤ 5 →
      ((Real.sqrt 50 - 1 : ℝ) : WithTop ℝ) =
        ((specMeanError (clampToFloor { x := 5, y := 5 }) readingsABC : ℝ) : WithTop ℝ))) :=
  have hraw : trilaterateRaw (trilatReadings (buildReadings realMath demoBeacons batchABC))
      = some { x := 5, y := 5, used := readingsABC } := by
    rw [buildReadings_batchABC, trilatReadings_readingsABC, trilaterateRaw_readingsABC]
  ⟨⟨estimatePosition_batchABC, hraw⟩,
    error_is_mean_over_input_set demoBeacons batchABC
      { x := 10 / 3, y := 10 / 3, method := Method.centroid_fallback,
        error := ((Real.sqrt 50 - 1 : ℝ) : WithTop ℝ) }
      { x := 5, y := 5, used := readingsABC } estimatePosition_batchABC hraw⟩

/-- C13: for every batch of exactly 1 or 2 raw readings whose MACs all resolve,
`estimatePosition` returns method `centroid_only`, the position `centroidPosition` of the
readings built from the batch, and the error `+Infinity`. -/
theorem small_batch_is_centroid_only (M : JsMath K) (beacons : List (Beacon K))
    (posData : List RawReading) (hlen : posData.length = 1 ∨ posData.length = 2)
    (hv : ∀ r ∈ posData, Resolves beacons r.mac) :
    ∃ c, centroidPosition (buildReadings M beacons posData) = some c ∧
      estimatePosition M beacons posData =
        some { x := c.x, y := c.y, method := Method.centroid_only, error := ⊤ } := by
  have hne : posData ≠ [] := by
    rintro rfl
    simp at hlen
  exact estimatePosition_of_short M beacons posData hne (by omega) hv

/-- Witness for C13: the batch that reports beacon A twice has 2 readings, which resolve. -/
theorem small_batch_is_centroid_only_witness :
    ((batchAA.length = 1 ∨ batchAA.length = 2) ∧
      ∀ r ∈ batchAA, Resolves demoBeacons r.mac) ∧
    ∃ c, centroidPosition (buildReadings realMath demoBeacons batchAA) = some c ∧
      estimatePosition realMath demoBeacons batchAA =
        some { x := c.x, y := c.y, method := Method.centroid_only, error := ⊤ } :=
  have hlen : batchAA.length = 1 ∨ batchAA.length = 2 := Or.inr rfl
  ⟨⟨hlen, resolves_batchAA⟩,
    small_batch_is_centroid_only realMath demoBeacons batchAA hlen resolves_batchAA⟩

/-- C14: `clampToFloor` is idempotent, and it is the identity on every position already
inside `[0,40] x [0,30]`. -/
theorem clampToFloor_idempotent (p : Pos K) :
    clampToFloor (clampToFloor p) = clampToFloor p ∧
      (0 ≤ p.x → p.x ≤ 40 → 0 ≤ p.y → p.y ≤ 30 → clampToFloor p = p) := by
  obtain ⟨h1, h2, h3, h4⟩ := clampToFloor_bounds p
  exact ⟨clampToFloor_of_inside _ h1 h2 h3 h4, clampToFloor_of_inside p⟩

/-- Witness for C14: the position (5, 5) lies inside the floor. -/
theorem clampToFloor_idempotent_witness :
    ((0 : ℝ) ≤ 5 ∧ (5 : ℝ) ≤ 40 ∧ (0 : ℝ) ≤ 5 ∧ (5 : ℝ) ≤ 30) ∧
    clampToFloor ({ x := 5, y := 5 } : Pos ℝ) = { x := 5, y := 5 } :=
  have h0 : (0 : ℝ) ≤ 5 := by norm_num
  have h1 : (5 : ℝ) ≤ 40 := by norm_num
  have h2 : (5 : ℝ) ≤ 30 := by norm_num
  ⟨⟨h0, h1, h0, h2⟩, (clampToFloor_idempotent ({ x := 5, y := 5 } : Pos ℝ)).2 h0 h1 h0 h2⟩

/-- C15: for every non-empty list of readings no division of `centroidPosition`,
`trilaterateRaw` or `trilatError` has a zero divisor: every weight divisor `d * d + 1e-6` and
the weight sum are strictly positive, so `centroidPosition` returns a position;
`trilaterateRaw` returns a solution only with a determinant of at least 1e-6 in absolute
value, which is the divisor it uses; and `trilatError` is a number exactly when the position
is present and the reading count, its divisor, is positive, and `+Infinity` otherwise. -/
theorem divisors_never_zero (M : JsMath K) (readings : List (Reading K)) (pos : Pos K)
    (hne : readings ≠ []) :
    (∀ r ∈ readings, 0 < r.d * r.d + 1 / 1000000) ∧
    0 < (readings.foldl centroidStep (0, 0, 0)).1 ∧
    (∃ c, centroidPosition readings = some c) ∧
    (∀ raw, trilaterateRaw readings = some raw →
      1 / 1000000 ≤ |trilatDet readings| ∧ trilatDet readings ≠ 0 ∧
      ∃ ref rest, usedReadings readings = ref :: rest ∧
        raw.x = (normalEquations ref rest).A22 / trilatDet readings
            * (normalEquations ref rest).B1
          + -(normalEquations ref rest).A12 / trilatDet readings
            * (normalEquations ref rest).B2 ∧
        raw.y = -(normalEquations ref rest).A12 / trilatDet readings
            * (normalEquations ref rest).B1
          + (normalEquations ref rest).A11 / trilatDet readings
            * (normalEquations ref rest).B2) ∧
    (0 < (readings.length : K) ∧
      ∃ v : K, trilatError M (some pos) readings = ((v : K) : WithTop K)) ∧
    (∀ (p : Option (Pos K)) (l : List (Reading K)),
      trilatError M p l ≠ ⊤ ↔ p ≠ none ∧ 0 < l.length) := by
  have hlen : readings.length ≠ 0 := by simpa using hne
  refine ⟨fun r _ => centroid_weight_pos r, foldl_centroidStep_pos readings hne,
    ⟨_, centroidPosition_of_ne_nil readings hne⟩, ?_, ⟨?_, ?_⟩, trilatError_ne_top_iff M⟩
  · intro raw hraw
    obtain ⟨ref, rest, hused, -, -, -, habs, hx, hy⟩ := trilaterateRaw_eq_some readings raw hraw
    refine ⟨habs, ?_, ref, rest, hused, hx, hy⟩
    intro h0
    rw [h0, abs_zero] at habs
    norm_num at habs
  · exact Nat.cast_pos.mpr (Nat.pos_of_ne_zero hlen)
  · refine ⟨readings.foldl
      (fun sumAbs r => sumAbs + |M.hypot (pos.x - r.x) (pos.y - r.y) - r.d|) 0
        / (readings.length : K), ?_⟩
    simp only [trilatError, hlen, if_false]

/-- Witness for C15: the three readings of A, B and C. -/
theorem divisors_never_zero_witness :
    readingsABC ≠ [] ∧
    (∀ r ∈ readingsABC, 0 < r.d * r.d + 1 / 1000000) ∧
    0 < (readingsABC.foldl centroidStep (0, 0, 0)).1 ∧
    (∃ c, centroidPosition readingsABC = some c) :=
  have hne : readingsABC ≠ [] := by simp [readingsABC]
  have h := divisors_never_zero realMath readingsABC { x := 5, y := 5 } hne
  ⟨hne, h.1, h.2.1, h.2.2.1⟩

/-- C16: whenever `trilaterateRaw` returns a solution `(x, y)`, it satisfies the normal
equations `A11 * x + A12 * y = B1` and `A12 * x + A22 * y = B2`, the sums being taken over all
the non-reference used readings, and `(x, y)` is the unique minimiser of the sum of the
squared residuals `(dx * x + dy * y - rhs)²`. -/
theorem trilaterateRaw_normal_equations (readings : List (Reading K)) (raw : TrilatResult K)
    (h : trilaterateRaw readings = some raw) :
    ∃ ref rest, usedReadings readings = ref :: rest ∧ raw.used = ref :: rest ∧
      (specNormalEq ref rest).A11 * raw.x + (specNormalEq ref rest).A12 * raw.y
        = (specNormalEq ref rest).B1 ∧
      (specNormalEq ref rest).A12 * raw.x + (specNormalEq ref rest).A22 * raw.y
        = (specNormalEq ref rest).B2 ∧
      ∀ x' y', (x' ≠ raw.x ∨ y' ≠ raw.y) →
        residualSumSq ref rest raw.x raw.y < residualSumSq ref rest x' y' := by
  obtain ⟨ref, rest, hused, hru, -, hdet, habs, hx, hy⟩ := trilaterateRaw_eq_some readings raw h
  rw [normalEquations_eq_spec] at hdet hx hy
  have hnn := specNormalEq_det_nonneg ref rest
  rw [← hdet] at hnn
  have hpos : 0 < trilatDet readings := by
    rw [abs_of_nonneg hnn] at habs
    exact lt_of_lt_of_le (by norm_num) habs
  have hne : trilatDet readings ≠ 0 := hpos.ne'
  have h1 : (specNormalEq ref rest).A11 * raw.x + (specNormalEq ref rest).A12 * raw.y
      = (specNormalEq ref rest).B1 := by
    rw [hx, hy]
    field_simp
    rw [hdet]
    ring
  have h2 : (specNormalEq ref rest).A12 * raw.x + (specNormalEq ref rest).A22 * raw.y
      = (specNormalEq ref rest).B2 := by
    rw [hx, hy]
    field_simp
    rw [hdet]
    ring
  refine ⟨ref, rest, hused, hru, h1, h2, ?_⟩
  intro x' y' hxy
  rw [residualSumSq_expand ref rest raw.x raw.y x' y', h1, h2]
  have huv : x' - raw.x ≠ 0 ∨ y' - raw.y ≠ 0 := by
    rcases hxy with hx' | hy'
    · exact Or.inl (sub_ne_zero.mpr hx')
    · exact Or.inr (sub_ne_zero.mpr hy')
  have hq := specNormalEq_quadratic_form_pos ref rest (by rw [← hdet]; exact hpos)
    (x' - raw.x) (y' - raw.y) huv
  simp only [sub_self, mul_zero, add_zero]
  linarith

/-- Witness for C16: on the readings of A, B and C the solution is (5, 5). -/
theorem trilaterateRaw_normal_equations_witness :
    trilaterateRaw readingsABC = some { x := 5, y := 5, used := readingsABC } ∧
    ∃ ref rest, usedReadings readingsABC = ref :: rest ∧ readingsABC = ref :: rest ∧
      (specNormalEq ref rest).A11 * 5 + (specNormalEq ref rest).A12 * 5
        = (specNormalEq ref rest).B1 ∧
      (specNormalEq ref rest).A12 * 5 + (specNormalEq ref rest).A22 * 5
        = (specNormalEq ref rest).B2 ∧
      ∀ x' y' : ℝ, (x' ≠ 5 ∨ y' ≠ 5) →
        residualSumSq ref rest 5 5 < residualSumSq ref rest x' y' :=
  ⟨trilaterateRaw_readingsABC,
    trilaterateRaw_normal_equations readingsABC _ trilaterateRaw_readingsABC⟩

/-- C17: for every list of `n ≥ 3` readings, the list `used` of `trilaterateRaw` has exactly
`min n 5` elements, is sorted by non-decreasing distance, is a sub-multiset of the input,
every omitted reading has a distance at least that of every kept reading, and the reference
`used[0]` has the minimum distance of the whole input. -/
theorem usedReadings_spec (readings : List (Reading K)) (h3 : 3 ≤ readings.length) :
    (usedReadings readings).length = min readings.length 5 ∧
    List.Pairwise (fun a b => a.d ≤ b.d) (usedReadings readings) ∧
    List.Subperm (usedReadings readings) readings ∧
    (∃ omitted, List.Perm (usedReadings readings ++ omitted) readings ∧
      ∀ o ∈ omitted, ∀ k ∈ usedReadings readings, k.d ≤ o.d) ∧
    (∃ ref rest, usedReadings readings = ref :: rest ∧ ∀ r ∈ readings, ref.d ≤ r.d) ∧
    (∀ raw, trilaterateRaw readings = some raw → raw.used = usedReadings readings) := by
  have hperm := usedReadings_append_drop readings
  refine ⟨usedReadings_length readings, usedReadings_pairwise readings, ?_,
    ⟨_, hperm, usedReadings_le_dropped readings⟩, ?_, trilaterateRaw_used readings⟩
  · exact (List.sublist_append_left _ _).subperm.trans hperm.subperm
  · have hlen := usedReadings_length readings
    cases hu : usedReadings readings with
    | nil =>
      rw [hu] at hlen
      simp only [List.length_nil] at hlen
      have : 3 ≤ min readings.length 5 := le_min h3 (by norm_num)
      omega
    | cons ref rest => exact ⟨ref, rest, rfl, usedReadings_head_min readings ref rest hu⟩

/-- Witness for C17: the three readings of A, B and C. -/
theorem usedReadings_spec_witness :
    3 ≤ readingsABC.length ∧
    ((usedReadings readingsABC).length = min readingsABC.length 5 ∧
    List.Pairwise (fun a b => a.d ≤ b.d) (usedReadings readingsABC) ∧
    List.Subperm (usedReadings readingsABC) readingsABC ∧
    (∃ omitted, List.Perm (usedReadings readingsABC ++ omitted) readingsABC ∧
      ∀ o ∈ omitted, ∀ k ∈ usedReadings readingsABC, k.d ≤ o.d) ∧
    (∃ ref rest, usedReadings readingsABC = ref :: rest ∧ ∀ r ∈ readingsABC, ref.d ≤ r.d) ∧
    (∀ raw, trilaterateRaw readingsABC = some raw → raw.used = usedReadings readingsABC)) :=
  have h3 : 3 ≤ readingsABC.length := by simp [readingsABC]
  ⟨h3, usedReadings_spec readingsABC h3⟩

/-- C18: in `estimatePosition` the trilateration input set is exactly the sub-list of readings
with `rssi ≥ -90` when at least 3 readings satisfy that bound, and the full reading list
otherwise; a reading weaker than -90 dBm is in that set exactly when fewer than 3 strong
readings exist; the trilateration position comes from that set while the centroid is that
of every reading. -/
theorem trilateration_input_set (M : JsMath K) (beacons : List (Beacon K))
    (posData : List RawReading) (hne : posData ≠ [])
    (hv : ∀ r ∈ posData, Resolves beacons r.mac) :
    trilatReadings (buildReadings M beacons posData) =
        specTrilatInput (buildReadings M beacons posData) ∧
    (∀ r ∈ buildReadings M beacons posData, r.rssi < -90 →
      (r ∈ trilatReadings (buildReadings M beacons posData) ↔
        ((buildReadings M beacons posData).filter (fun r => decide (-90 ≤ r.rssi))).length
          < 3)) ∧
    ∃ e c, estimatePosition M beacons posData = some e ∧
      centroidPosition (buildReadings M beacons posData) = some c ∧
      (e.method = Method.trilateration →
        ∃ raw, trilaterateRaw (specTrilatInput (buildReadings M beacons posData)) = some raw ∧
          e.pos = clampToFloor { x := raw.x, y := raw.y }) ∧
      (e.method ≠ Method.trilateration → e.pos = c) := by
  have hspec := trilatReadings_eq_spec (buildReadings M beacons posData)
  refine ⟨hspec, ?_, ?_⟩
  · intro r hr hweak
    rw [hspec]
    unfold specTrilatInput
    split
    · rename_i h3
      constructor
      · intro hmem
        have := (List.mem_filter.mp hmem).2
        simp only [decide_eq_true_eq] at this
        omega
      · intro hlt
        omega
    · rename_i h3
      constructor
      · intro _
        omega
      · intro _
        exact hr
  · obtain ⟨c, hc, he⟩ := estimatePosition_of_valid M beacons posData hne hv
    rw [hspec] at he
    rw [he]
    cases hraw : trilaterateRaw (specTrilatInput (buildReadings M beacons posData)) with
    | none => exact ⟨_, c, rfl, hc, by simp, fun _ => rfl⟩
    | some raw =>
      simp only
      split
      · exact ⟨_, c, rfl, hc, fun _ => ⟨raw, rfl, rfl⟩, fun h => absurd rfl h⟩
      · refine ⟨_, c, rfl, hc, ?_, fun _ => rfl⟩
        intro h
        cases h

/-- Witness for C18: the batch A, B, C is non-empty and all its MACs resolve. -/
theorem trilateration_input_set_witness :
    (batchABC ≠ [] ∧ ∀ r ∈ batchABC, Resolves demoBeacons r.mac) ∧
    (trilatReadings (buildReadings realMath demoBeacons batchABC) =
        specTrilatInput (buildReadings realMath demoBeacons batchABC) ∧
    (∀ r ∈ buildReadings realMath demoBeacons batchABC, r.rssi < -90 →
      (r ∈ trilatReadings (buildReadings realMath demoBeacons batchABC) ↔
        ((buildReadings realMath demoBeacons batchABC).filter
          (fun r => decide (-90 ≤ r.rssi))).length < 3)) ∧
    ∃ e c, estimatePosition realMath demoBeacons batchABC = some e ∧
      centroidPosition (buildReadings realMath demoBeacons batchABC) = some c ∧
      (e.method = Method.trilateration →
        ∃ raw, trilaterateRaw (specTrilatInput (buildReadings realMath demoBeacons batchABC))
            = some raw ∧
          e.pos = clampToFloor { x := raw.x, y := raw.y }) ∧
      (e.method ≠ Method.trilateration → e.pos = c)) :=
  have hne : batchABC ≠ [] := by simp [batchABC]
  ⟨⟨hne, resolves_batchABC⟩,
    trilateration_input_set realMath demoBeacons batchABC hne resolves_batchABC⟩

/-- C19: exact recovery.  For every point `q` and every list of at least 3 readings whose
distance `d` is exactly the Euclidean distance from `q` to the beacon of the reading, if the
determinant of the used subset is at least 1e-6 in absolute value then `trilaterateRaw`
returns exactly `(q.x, q.y)`, and `trilatError` of `q` over those readings is 0. -/
theorem exact_recovery (q : Pos ℝ) (readings : List (Reading ℝ)) (h3 : 3 ≤ readings.length)
    (hd : ∀ r ∈ readings, r.d = Real.sqrt ((q.x - r.x) ^ 2 + (q.y - r.y) ^ 2))
    (hdet : 1 / 1000000 ≤ |trilatDet readings|) :
    ∃ raw, trilaterateRaw readings = some raw ∧ raw.x = q.x ∧ raw.y = q.y ∧
      trilatError realMath (some q) readings = ((0 : ℝ) : WithTop ℝ) := by
  have hsome : trilaterateRaw readings ≠ none := by
    rw [Ne, trilaterateRaw_eq_none_iff]
    push_neg
    exact ⟨h3, hdet⟩
  obtain ⟨raw, hraw⟩ := Option.ne_none_iff_exists'.mp hsome
  have hsq : ∀ r ∈ readings, r.d * r.d = (q.x - r.x) ^ 2 + (q.y - r.y) ^ 2 := by
    intro r hr
    rw [hd r hr]
    exact Real.mul_self_sqrt (add_nonneg (sq_nonneg _) (sq_nonneg _))
  obtain ⟨hx, hy⟩ := trilaterateRaw_of_exact q readings raw hsq hraw
  have hne : readings ≠ [] := by
    rintro rfl
    simp at h3
  exact ⟨raw, hraw, hx, hy, trilatError_of_exact q readings hne hd⟩

/-- Witness for C19: three beacons on the circle of radius 5 around `q = (20, 15)`. -/
theorem exact_recovery_witness :
    (3 ≤ readingsCircle.length ∧
      (∀ r ∈ readingsCircle,
        r.d = Real.sqrt ((({ x := 20, y := 15 } : Pos ℝ).x - r.x) ^ 2
          + (({ x := 20, y := 15 } : Pos ℝ).y - r.y) ^ 2)) ∧
      1 / 1000000 ≤ |trilatDet readingsCircle|) ∧
    ∃ raw, trilaterateRaw readingsCircle = some raw ∧
      raw.x = ({ x := 20, y := 15 } : Pos ℝ).x ∧ raw.y = ({ x := 20, y := 15 } : Pos ℝ).y ∧
      trilatError realMath (some { x := 20, y := 15 }) readingsCircle
        = ((0 : ℝ) : WithTop ℝ) :=
  have h3 : 3 ≤ readingsCircle.length := by simp [readingsCircle]
  have hdet : 1 / 1000000 ≤ |trilatDet readingsCircle| := by
    rw [trilatDet_readingsCircle]
    norm_num
  ⟨⟨h3, readingsCircle_exact, hdet⟩,
    exact_recovery { x := 20, y := 15 } readingsCircle h3 readingsCircle_exact hdet⟩

/-- C20: for every sequence of reports of one device in which every report yields an estimate
and the mean RSSI change of every report after the first, relative to the readings of the
report just before it, is below 5 dBm, the position persisted after every report is the
position persisted by the first report; nothing is assumed about the cumulative RSSI change or
about the new estimates. -/
theorem held_position_under_slow_drift (M : JsMath K) (beacons : List (Beacon K))
    (store : List (Row K)) (deviceId deviceEuid : String) (first : List RawReading)
    (rest : List (List RawReading)) (heuid : deviceEuid ≠ "")
    (hfirst : ∃ e, estimatePosition M beacons first = some e)
    (hchain : List.Chain
      (fun prev cur => (∃ e, estimatePosition M beacons cur = some e) ∧
        (calculateRssiChange cur (some prev) : WithTop K) < ((5 : K) : WithTop K))
      first rest) :
    ∃ p, persistedPosition (runReports M beacons deviceId deviceEuid store [first]) deviceId
        = some p ∧
      ∀ k, persistedPosition
          (runReports M beacons deviceId deviceEuid store (first :: rest.take k)) deviceId
        = some p := by
  obtain ⟨p, hp⟩ := insertData_of_estimate M beacons store deviceId deviceEuid first heuid hfirst
  have hlast := getLastDevicePosition_cons_self store deviceId (some p) (some first)
  rw [← hp] at hlast
  refine ⟨p, ?_, ?_⟩
  · simp only [persistedPosition, runReports, List.foldl_cons, List.foldl_nil, hlast,
      Option.some_bind]
  · intro k
    obtain ⟨cur, hcur⟩ := runReports_holds_position M beacons deviceId deviceEuid heuid rest
      _ first p hlast hchain k
    simp only [runReports, List.foldl_cons] at hcur ⊢
    simp only [persistedPosition, hcur, Option.some_bind]

/-- Witness for C20: four reports in which beacon A drifts by 4 dBm each time, 12 dBm in
all. -/
theorem held_position_under_slow_drift_witness :
    (("70B3D57ED005A1B2" : String) ≠ "" ∧
      (∃ e, estimatePosition realMath demoBeacons driftFirst = some e) ∧
      List.Chain
        (fun prev cur => (∃ e, estimatePosition realMath demoBeacons cur = some e) ∧
          (calculateRssiChange cur (some prev) : WithTop ℝ) < ((5 : ℝ) : WithTop ℝ))
        driftFirst driftReports) ∧
    ∃ p, persistedPosition
        (runReports realMath demoBeacons "dev-1" "70B3D57ED005A1B2" [] [driftFirst]) "dev-1"
        = some p ∧
      ∀ k, persistedPosition
          (runReports realMath demoBeacons "dev-1" "70B3D57ED005A1B2" []
            (driftFirst :: driftReports.take k)) "dev-1"
        = some p :=
  have heuid : ("70B3D57ED005A1B2" : String) ≠ "" := by decide
  ⟨⟨heuid, driftFirst_estimate, driftReports_chain⟩,
    held_position_under_slow_drift realMath demoBeacons [] "dev-1" "70B3D57ED005A1B2"
      driftFirst driftReports heuid driftFirst_estimate driftReports_chain⟩

end Claims

end IndoorTracking
